import Mathlib

/-! Verification of slack-cli: a shallow embedding of `main.go`.

Go strings are modelled as lists of Unicode code points (`List Char`): every
string the program handles is text decoded from JSON or typed on the command
line.  Go `int` values are `Int`; none of the arithmetic below can leave the
64-bit range for the inputs the program accepts (four-digit years, decoded
counts).  Go maps `map[string]string` are lookup functions.

Remote calls are answered by an oracle that sees the list of requests issued
so far, so that a server may answer the same request differently each time.
-/

namespace SlackCli

/-! ## Strings -/

/-- A Go `string`, as the list of its code points. -/
abbrev GoString := List Char

/-- Go's `strings.HasPrefix(s, p)`. -/
def hasPrefix : GoString → GoString → Bool
  | _, [] => true
  | [], _ :: _ => false
  | c :: cs, p :: ps => c == p && hasPrefix cs ps

/-- Go's `strings.Contains(s, sub)`: `sub` occurs in `s` (always true for the
empty `sub`). -/
def contains : GoString → GoString → Bool
  | [], sub => hasPrefix [] sub
  | c :: cs, sub => hasPrefix (c :: cs) sub || contains cs sub

/-- Go's `strings.Split(s, sep)` for a one-character separator: the pieces of
`s` between the separators, `count + 1` of them. -/
def split (sep : Char) : GoString → List GoString
  | [] => [[]]
  | c :: cs =>
    if c = sep then [] :: split sep cs
    else match split sep cs with
      | [] => [[c]]
      | h :: t => (c :: h) :: t

/-- The scan of `strings.Replace` for a non-empty `old`: `skip` counts the
characters of the occurrence just replaced that are still to be passed over. -/
def replaceScan (old new : GoString) : Nat → GoString → GoString
  | _, [] => []
  | skip + 1, _ :: cs => replaceScan old new skip cs
  | 0, c :: cs =>
    if hasPrefix (c :: cs) old then new ++ replaceScan old new (old.length - 1) cs
    else c :: replaceScan old new 0 cs

/-- Go's `strings.ReplaceAll(s, old, new)`: the non-overlapping occurrences of
`old`, found left to right, are replaced by `new`; an empty `old` matches
before the first character and after every character. -/
def replaceAll (s old new : GoString) : GoString :=
  match old with
  | [] => new ++ s.flatMap (fun c => c :: new)
  | _ :: _ => replaceScan old new 0 s

/-- Go's `strconv.FormatInt(n, 10)` and the verb `%d`. -/
def formatInt (n : Int) : GoString :=
  match n with
  | Int.ofNat k => Nat.toDigits 10 k
  | Int.negSucc k => '-' :: Nat.toDigits 10 (k + 1)

/-! ## Dates: `time.Parse("2006-01-02", s)`, `Time.Unix`, `Time.AddDate` -/

/-- The `isDigit` of package `time`. -/
def isDigit (c : Char) : Bool := decide ('0' ≤ c) && decide (c ≤ '9')

/-- Value of a decimal digit. -/
def digitVal (c : Char) : Nat := c.toNat - 48

/-- A calendar date as held by a `time.Time` at midnight UTC.  `day` may
exceed the length of the month in the argument of `dateUnix`, as in Go's
`time.Date`, which normalises by counting on. -/
structure Date where
  year : Nat
  month : Nat
  day : Nat
  deriving DecidableEq, Repr

/-- The `isLeap` of package `time`. -/
def isLeap (year : Nat) : Bool :=
  year % 4 == 0 && (year % 100 != 0 || year % 400 == 0)

/-- Days of a non-leap year before the first of month `m` (1-based), the
table `daysBefore` of package `time`. -/
def daysBefore (m : Nat) : Nat :=
  [0, 31, 59, 90, 120, 151, 181, 212, 243, 273, 304, 334, 365].getD (m - 1) 0

/-- The `daysIn` of package `time`. -/
def daysIn (m year : Nat) : Nat :=
  if m = 2 ∧ isLeap year = true then 29 else daysBefore (m + 1) - daysBefore m

/-- Days from 0000-01-01 to the first of January of `year` in the proleptic
Gregorian calendar. -/
def daysBeforeYear (year : Nat) : Nat :=
  365 * year + (year + 3) / 4 - (year + 99) / 100 + (year + 399) / 400

/-- Days from 0000-01-01 to 1970-01-01. -/
def unixEpochDay : Nat := 719528

/-- Go's `time.Date(year, month, day, 0, 0, 0, 0, time.UTC).Unix()`: seconds from
1970-01-01 00:00:00 UTC to midnight of the date; a `day` past the end of the
month counts on into the following months. -/
def dateUnix (d : Date) : Int :=
  (((daysBeforeYear d.year + daysBefore d.month
      + (if isLeap d.year = true ∧ 3 ≤ d.month then 1 else 0) + (d.day - 1) : Nat) : Int)
    - (unixEpochDay : Int)) * 86400

/-- Go's `t.AddDate(0, 0, 1)` for a date at midnight: `Date(year, month, day + 1)`. -/
def addDay (d : Date) : Date := { d with day := d.day + 1 }

/-- Go's `time.Parse("2006-01-02", s)`: four digits, `-`, two digits, `-`, two
digits and nothing else, with the month in 1..12 and the day within the
month.  `none` is a parse error. -/
def parseDate (s : GoString) : Option Date :=
  match s with
  | [y1, y2, y3, y4, '-', m1, m2, '-', d1, d2] =>
    if isDigit y1 && isDigit y2 && isDigit y3 && isDigit y4
        && isDigit m1 && isDigit m2 && isDigit d1 && isDigit d2 then
      let year := digitVal y1 * 1000 + digitVal y2 * 100 + digitVal y3 * 10 + digitVal y4
      let month := digitVal m1 * 10 + digitVal m2
      let day := digitVal d1 * 10 + digitVal d2
      if month < 1 ∨ 12 < month then none
      else if day < 1 ∨ daysIn month year < day then none
      else some { year := year, month := month, day := day }
    else none
  | _ => none

/-! ## Data model -/

/-- An attached file of a message (the anonymous struct of `Files`). -/
structure SlackFile where
  URLPrivate : GoString
  Name : GoString
  Mimetype : GoString
  deriving DecidableEq, Repr

/-- The type `SlackReaction`. -/
structure SlackReaction where
  Name : GoString
  Count : Int
  Users : List GoString
  deriving DecidableEq, Repr

/-- The type `SlackMessageReply`; `EditedUser` is the field `Edited.User`. -/
structure SlackMessageReply where
  UserID : GoString
  UserName : GoString
  Text : GoString
  Ts : GoString
  Reactions : List SlackReaction
  Files : List SlackFile
  EditedUser : GoString
  deriving DecidableEq, Repr

/-- The type `SlackMessageItem`; `EditedUser` is the field `Edited.User`. -/
structure SlackMessageItem where
  UserID : GoString
  UserName : GoString
  Text : GoString
  Ts : GoString
  ThreadTS : GoString
  Replies : List SlackMessageReply
  Reactions : List SlackReaction
  Files : List SlackFile
  EditedUser : GoString
  deriving DecidableEq, Repr

/-- The type `SlackMessagesResponse`; `NextCursor` is `ResponseMetadata.NextCursor`. -/
structure SlackMessagesResponse where
  Messages : List SlackMessageItem
  HasMore : Bool
  NextCursor : GoString
  deriving DecidableEq, Repr

/-- The type `UserProfile`; `RealName` is `User.RealName`. -/
structure UserProfile where
  OK : Bool
  RealName : GoString
  deriving DecidableEq, Repr

/-- A Go `map[string]string`. -/
abbrev UserMap := GoString → Option GoString

/-- The map after `m[k] = v`. -/
def UserMap.set (m : UserMap) (k v : GoString) : UserMap :=
  fun k' => if k' = k then some v else m k'

/-! ## The remote API and the state of a run -/

/-- A request sent to the remote API, by the parts of its URL that vary. -/
inductive Request where
  /-- A GET of `users.info?user=<userID>`. -/
  | usersInfo (userID : GoString)
  /-- A GET of `conversations.history?channel=..&limit=<limit>`, with
  `&oldest=..&latest=..` and `&cursor=..` when given. -/
  | history (limit : Int) (bounds : Option (GoString × GoString)) (cursor : Option GoString)
  /-- A GET of `conversations.replies?channel=..&ts=<threadTs>`. -/
  | replies (threadTs : GoString)
  deriving DecidableEq, Repr

/-- What a GET followed by `io.ReadAll` and `json.Unmarshal` comes to: the
error of the first step that fails, or the decoded value. -/
inductive Fetched (α : Type) where
  | doError (err : GoString)
  | readError (err : GoString)
  | decodeError (err : GoString)
  | ok (val : α)
  deriving Repr

/-- The remote API: each answer may depend on the requests issued before. -/
structure Remote where
  usersInfo : List Request → GoString → Fetched UserProfile
  history : List Request → Request → Fetched SlackMessagesResponse
  /-- The answer to `conversations.replies`: a transport error, or the messages that were
  decoded (the decoder's own error is dropped by `getThreadReplies`). -/
  replies : List Request → GoString → Except GoString (List SlackMessageItem)

/-- What the program reads from its surroundings and never changes. -/
structure Env where
  /-- The table `emojiList` loaded from `slack.emoji.json`. -/
  emojiList : GoString → Option GoString
  /-- The function `formatTimestamp`: it goes through `strconv.ParseFloat` and the local
  time zone, which are left abstract. -/
  formatTimestamp : GoString → GoString

/-- The mutable state of a run.  `config.UserCache` is an allocated map, as
`createConfig` writes it. -/
structure State where
  /-- The session cache, the map `userCache` handed to `getUserName`. -/
  userCache : UserMap
  /-- The persisted cache `config.UserCache`. -/
  configUserCache : UserMap
  /-- Requests issued so far, oldest first. -/
  requests : List Request
  /-- Number of `saveConfig()` calls so far. -/
  saves : Nat
  /-- What has been printed to standard output, oldest first. -/
  out : List GoString

/-- Go's `fmt.Println(msg, err)`. -/
def printlnErr (msg err : GoString) : GoString := msg ++ " ".toList ++ err ++ "\n".toList

/-- Append a printed string to the output. -/
def State.print (st : State) (s : GoString) : State := { st with out := st.out ++ [s] }

/-- Record a request as issued. -/
def State.send (st : State) (r : Request) : State := { st with requests := st.requests ++ [r] }

/-- The sentinel name. -/
def unknown : GoString := "Unknown".toList

/-! ## `getUserName` -/

/-- The function `getUserName(userID, userCache)`, lines 198-245; the map
`userCache` is the field of that name of the state. -/
def getUserName (remote : Remote) (userID : GoString) (st : State) : GoString × State :=
  if userID = [] then (unknown, st)
  else
    match st.userCache userID with
    | some name => (name, st)
    | none =>
      match st.configUserCache userID with
      | some name => (name, { st with userCache := st.userCache.set userID name })
      | none =>
        let st1 := st.send (.usersInfo userID)
        match remote.usersInfo st.requests userID with
        | .doError err =>
          (unknown, st1.print (printlnErr "Error fetching user profile:".toList err))
        | .readError err =>
          (unknown, st1.print (printlnErr "Error reading user profile response:".toList err))
        | .decodeError err =>
          (unknown, st1.print (printlnErr "Error decoding user profile JSON:".toList err))
        | .ok userProfile =>
          if userProfile.OK then
            let name := userProfile.RealName
            (name, { st1 with
                      userCache := st1.userCache.set userID name
                      configUserCache := st1.configUserCache.set userID name
                      saves := st1.saves + 1 })
          else (unknown, st1)

/-! ## `unicodeToEmoji` and `getReactionsString` -/

/-- Value of a base-16 digit, as `strconv.ParseUint` reads it. -/
def hexVal (c : Char) : Option Nat :=
  if '0' ≤ c ∧ c ≤ '9' then some (c.toNat - 48)
  else if 'a' ≤ c ∧ c ≤ 'f' then some (c.toNat - 97 + 10)
  else if 'A' ≤ c ∧ c ≤ 'F' then some (c.toNat - 65 + 10)
  else none

/-- The digit loop of `strconv.ParseUint(s, 16, _)` on the rest of the string,
`acc` being the value read so far; `none` is a syntax error. -/
def parseHexFrom : GoString → Nat → Option Nat
  | [], acc => some acc
  | c :: cs, acc =>
    match hexVal c with
    | some d => parseHexFrom cs (acc * 16 + d)
    | none => none

/-- The unsigned part of `strconv.ParseInt(s, 16, 32)`: at least one digit. -/
def parseHex (s : GoString) : Option Nat :=
  match s with
  | [] => none
  | _ :: _ => parseHexFrom s 0

/-- Go's `strconv.ParseInt(s, 16, 32)`: an optional sign, then base-16 digits, the
value within the signed 32-bit range; `none` is an error (syntax or range). -/
def parseInt16 (s : GoString) : Option Int :=
  match s with
  | [] => none
  | '+' :: rest =>
    match parseHex rest with
    | some un => if un ≥ 2 ^ 31 then none else some (un : Int)
    | none => none
  | '-' :: rest =>
    match parseHex rest with
    | some un => if un > 2 ^ 31 then none else some (-(un : Int))
    | none => none
  | _ :: _ =>
    match parseHex s with
    | some un => if un ≥ 2 ^ 31 then none else some (un : Int)
    | none => none

/-- Go's conversion `string(rune(v))`: the one character `v`, or U+FFFD when
`v` is not a Unicode scalar value. -/
def runeString (v : Int) : GoString :=
  if 0 ≤ v ∧ Nat.isValidChar v.toNat then [Char.ofNat v.toNat] else [Char.ofNat 0xFFFD]

/-- The function `unicodeToEmoji(unicodeStr)`, lines 838-846; `none` is the error return,
whose string is `""`. -/
def unicodeToEmoji (unicodeStr : GoString) : Option GoString :=
  let s1 := replaceAll unicodeStr "&#x".toList []
  let s2 := replaceAll s1 ";".toList []
  match parseInt16 s2 with
  | none => none
  | some runeValue => some (runeString runeValue)

/-- The body of the loop of `getReactionsString`: the text appended for one
reaction.  The error of `unicodeToEmoji` is discarded, which leaves the `""`
returned with it. -/
def reactionPiece (emojiList : GoString → Option GoString) (reaction : SlackReaction) :
    GoString :=
  let emoji := match emojiList reaction.Name with
    | some e => e
    | none => reaction.Name
  let emojiUnicode := match unicodeToEmoji emoji with
    | some g => g
    | none => []
  " ".toList ++ emojiUnicode ++ ":".toList ++ formatInt reaction.Count

/-- The loop of `getReactionsString`, lines 501-509: `acc` is `reactionsStr`. -/
def getReactionsLoop (emojiList : GoString → Option GoString) :
    List SlackReaction → GoString → GoString
  | [], acc => acc
  | reaction :: rest, acc =>
    getReactionsLoop emojiList rest (acc ++ reactionPiece emojiList reaction)

/-- The function `getReactionsString(reactions)`, lines 500-511. -/
def getReactionsString (emojiList : GoString → Option GoString)
    (reactions : List SlackReaction) : GoString :=
  getReactionsLoop emojiList reactions []

/-! ## `getThreadReplies` -/

/-- The loop of `getThreadReplies`, lines 481-495: `replies` is the slice
built so far. -/
def collectReplies (remote : Remote) (threadTs filter : GoString) :
    List SlackMessageItem → List SlackMessageReply → State → List SlackMessageReply × State
  | [], replies, st => (replies, st)
  | msg :: rest, replies, st =>
    if msg.Ts ≠ threadTs then
      if filter = [] ∨ contains msg.Text filter = true then
        let r := getUserName remote msg.UserID st
        collectReplies remote threadTs filter rest
          (replies ++ [{ UserID := msg.UserID, UserName := r.1, Text := msg.Text, Ts := msg.Ts,
                         Reactions := msg.Reactions, Files := msg.Files, EditedUser := [] }]) r.2
      else collectReplies remote threadTs filter rest replies st
    else collectReplies remote threadTs filter rest replies st

/-- The function `getThreadReplies(threadTs, filter, search, userCache)`,
lines 464-498. -/
def getThreadReplies (remote : Remote) (threadTs filter _search : GoString) (st : State) :
    Except GoString (List SlackMessageReply) × State :=
  let st1 := st.send (.replies threadTs)
  match remote.replies st.requests threadTs with
  | .error err => (.error err, st1)
  | .ok messages =>
    let r := collectReplies remote threadTs filter messages [] st1
    (.ok r.1, r.2)

/-! ## `fetchMessages` -/

/-- The colour codes of `fetchMessages`. -/
def redColorStart : GoString := "\x1b[91m".toList
/-- The reset code. -/
def resetColor : GoString := "\x1b[0m".toList
/-- The default-colour code. -/
def defaultColorStart : GoString := "\x1b[39m".toList
/-- The continuation indent, `strings.Repeat(" ", 40)`. -/
def indent : GoString := List.replicate 40 ' '

/-- The replacement text of a highlighted term:
`fmt.Sprintf("%s%s%s%s", redColorStart, term, resetColor, defaultColorStart)`. -/
def wrapTerm (term : GoString) : GoString :=
  redColorStart ++ term ++ resetColor ++ defaultColorStart

/-- Lines 285-316: the bounds `oldest`, `latest` of a date range, or the
message printed before `fetchMessages` returns. -/
def parseDateRange (dateRange : GoString) : Except GoString (GoString × GoString) :=
  if dateRange ≠ [] then
    match split ':' dateRange with
    | [d] =>
      match parseDate d with
      | none => .error "Invalid date format. Use YYYY-MM-DD.\n".toList
      | some parsedDate =>
        .ok (formatInt (dateUnix parsedDate), formatInt (dateUnix (addDay parsedDate) - 1))
    | [d0, d1] =>
      match parseDate d0 with
      | none => .error "Invalid start date format. Use YYYY-MM-DD.\n".toList
      | some parsedStartDate =>
        match parseDate d1 with
        | none => .error "Invalid end date format. Use YYYY-MM-DD.\n".toList
        | some parsedEndDate =>
          .ok (formatInt (dateUnix parsedStartDate),
               formatInt (dateUnix (addDay parsedEndDate) - 1))
    | _ =>
      .error "Invalid date range format. Use YYYY-MM-DD or YYYY-MM-DD:YYYY-MM-DD.\n".toList
  else .ok ([], [])

/-- Lines 332-338: the history request for the given bounds and cursor. -/
def historyRequest (limit : Int) (oldest latest cursor : GoString) : Request :=
  .history limit (if oldest ≠ [] ∧ latest ≠ [] then some (oldest, latest) else none)
    (if cursor ≠ [] then some cursor else none)

/-- Lines 385-389: the highlighting of one text line of a message. -/
def highlightLine (search filter text line : GoString) : GoString :=
  if search ≠ [] then replaceAll line search (wrapTerm search)
  else if contains text filter = true then replaceAll line filter (wrapTerm filter)
  else line

/-- Lines 384-395: the lines appended for the text lines of a message, `i`
being the index of the first of them. -/
def renderTextLines (env : Env) (search filter : GoString) (msg : SlackMessageItem)
    (userName edited reactions : GoString) : Nat → List GoString → List GoString
  | _, [] => []
  | i, line :: rest =>
    let line1 := highlightLine search filter msg.Text line
    (if i = 0 then
        msg.Ts ++ " (".toList ++ env.formatTimestamp msg.Ts ++ ") ".toList ++ userName
          ++ ": ".toList ++ defaultColorStart ++ line1 ++ edited ++ reactions ++ "\n".toList
      else indent ++ defaultColorStart ++ line1 ++ "\n".toList)
      :: renderTextLines env search filter msg userName edited reactions (i + 1) rest

/-- Lines 396-406 (with `pre` two spaces) and 428-438 (with `pre` four spaces):
the line appended for an attached file. -/
def renderFile (pre search : GoString) (file : SlackFile) : GoString :=
  let fileNameColor :=
    if hasPrefix file.Mimetype "image/".toList = true then "\x1b[91m".toList
    else "\x1b[94m".toList
  if search ≠ [] then
    pre ++ "- File: ".toList ++ file.Name ++ " (".toList ++ file.URLPrivate ++ ")\n".toList
  else
    pre ++ "- File: ".toList ++ fileNameColor ++ file.Name ++ resetColor
      ++ " (\x1b[36m".toList ++ file.URLPrivate ++ "\x1b[0m)\n".toList

/-- Lines 418-427: the lines appended for the text lines of a reply. -/
def renderReplyLines (env : Env) (search : GoString) (reply : SlackMessageReply)
    (replyUserName edited reactions : GoString) : Nat → List GoString → List GoString
  | _, [] => []
  | i, line :: rest =>
    let line1 := if search ≠ [] then replaceAll line search (wrapTerm search) else line
    (if i = 0 then
        "  ↳ ".toList ++ reply.Ts ++ " (".toList ++ env.formatTimestamp reply.Ts ++ ") ".toList
          ++ replyUserName ++ ": ".toList ++ defaultColorStart ++ line1 ++ edited ++ reactions
          ++ "\n".toList
      else indent ++ defaultColorStart ++ line1 ++ "\n".toList)
      :: renderReplyLines env search reply replyUserName edited reactions (i + 1) rest

/-- Lines 410-439: the loop over the replies of a thread; `messages` is the
buffer of rendered lines. -/
def renderReplies (env : Env) (remote : Remote) (search : GoString) :
    List SlackMessageReply → List GoString → State → List GoString × State
  | [], messages, st => (messages, st)
  | reply :: rest, messages, st =>
    let r := getUserName remote reply.UserID st
    let edited := if reply.EditedUser ≠ [] then " (edited)".toList else []
    let reactions := getReactionsString env.emojiList reply.Reactions
    let textLines := split '\n' reply.Text
    renderReplies env remote search rest
      (messages ++ renderReplyLines env search reply r.1 edited reactions 0 textLines
        ++ reply.Files.map (renderFile "    ".toList search)) r.2

/-- The variables of `fetchMessages` that its loops update. -/
structure Loop where
  cursor : GoString
  hasMore : Bool
  totalFetched : Nat
  /-- The buffer `messages` of rendered lines. -/
  messages : List GoString
  /-- Ghost: the messages for which lines were rendered and `totalFetched`
  was incremented, in the order they were processed. -/
  accepted : List SlackMessageItem
  st : State

/-- Lines 377-442: the processing of a message that passed the selection. -/
def acceptMessage (env : Env) (remote : Remote) (search filter : GoString)
    (msg : SlackMessageItem) (l : Loop) : Loop :=
  let r := getUserName remote msg.UserID l.st
  let edited := if msg.EditedUser ≠ [] then " (edited)".toList else []
  let reactions := getReactionsString env.emojiList msg.Reactions
  let textLines := split '\n' msg.Text
  let messages1 := l.messages ++ renderTextLines env search filter msg r.1 edited reactions 0 textLines
    ++ msg.Files.map (renderFile "  ".toList search)
  let p : List GoString × State :=
    if msg.ThreadTS ≠ [] then
      let t := getThreadReplies remote msg.ThreadTS filter search r.2
      match t.1 with
      | .ok replies => renderReplies env remote search replies messages1 t.2
      | .error _ => (messages1, t.2)
    else (messages1, r.2)
  { l with messages := p.1, st := p.2, totalFetched := l.totalFetched + 1,
           accepted := l.accepted ++ [msg] }

/-- Lines 368-444: the loop over the messages of a page. -/
def processMessages (env : Env) (remote : Remote) (limit : Int) (search filter : GoString)
    (showFilesOnly : Bool) : List SlackMessageItem → Loop → Loop
  | [], l => l
  | msg :: rest, l =>
    if (l.totalFetched : Int) ≥ limit then { l with hasMore := false }
    else if filter = [] ∨ contains msg.Text filter = true then
      if showFilesOnly = true ∧ msg.Files.length = 0 then
        processMessages env remote limit search filter showFilesOnly rest l
      else
        processMessages env remote limit search filter showFilesOnly rest
          (acceptMessage env remote search filter msg l)
    else processMessages env remote limit search filter showFilesOnly rest l

/-- How `fetchMessages` ended. -/
inductive Ending where
  /-- A `return` on an error: the buffer `messages` is not printed. -/
  | aborted
  /-- The loop was left by `break` and the buffer was printed. -/
  | printed
  deriving DecidableEq, Repr

/-- The result of a run of `fetchMessages`. -/
structure FetchResult where
  ending : Ending
  /-- The loop variables on leaving the loop. -/
  loop : Loop
  /-- The state on return. -/
  st : State

/-- Lines 331-452: the loop `for { ... }`, with `fuel` bounding the number of
iterations; `none` means the bound was reached. -/
def fetchLoop (env : Env) (remote : Remote) (limit : Int)
    (dateRange oldest latest search filter : GoString) (showFilesOnly : Bool) :
    Nat → Loop → Option (Ending × Loop)
  | 0, _ => none
  | fuel + 1, l =>
    let req := historyRequest limit oldest latest l.cursor
    let st1 := l.st.send req
    match remote.history l.st.requests req with
    | .doError err =>
      some (.aborted, { l with st := st1.print (printlnErr "Error getting messages:".toList err) })
    | .readError err =>
      some (.aborted, { l with st := st1.print (printlnErr "Error reading response body:".toList err) })
    | .decodeError err =>
      some (.aborted, { l with st := st1.print (printlnErr "Error unmarshaling response:".toList err) })
    | .ok messagesResponse =>
      let l1 := processMessages env remote limit search filter showFilesOnly
        messagesResponse.Messages.reverse { l with st := st1 }
      let hasMore := messagesResponse.HasMore && decide (l1.cursor ≠ []) && decide (dateRange ≠ [])
      let l2 := { l1 with hasMore := hasMore, cursor := messagesResponse.NextCursor }
      if hasMore = false then some (.printed, l2)
      else fetchLoop env remote limit dateRange oldest latest search filter showFilesOnly fuel l2

/-- The function `fetchMessages(limit, dateRange, search, filter, showFilesOnly)`,
lines 275-457, run from the state `st0` (whose session cache is overwritten by
the copy of `config.UserCache` made at lines 318-321); `none` means the loop
needed more than `fuel` iterations. -/
def fetchMessages (env : Env) (remote : Remote) (fuel : Nat) (limit : Int)
    (dateRange search filter : GoString) (showFilesOnly : Bool) (st0 : State) :
    Option FetchResult :=
  let hasMore := decide (dateRange ≠ [])
  let l0 : Loop := { cursor := [], hasMore := hasMore, totalFetched := 0, messages := [],
                     accepted := [], st := st0 }
  match parseDateRange dateRange with
  | .error msg => some { ending := .aborted, loop := l0, st := st0.print msg }
  | .ok (oldest, latest) =>
    let l1 := { l0 with st := { st0 with userCache := st0.configUserCache } }
    match fetchLoop env remote limit dateRange oldest latest search filter showFilesOnly fuel l1 with
    | none => none
    | some (.aborted, l) => some { ending := .aborted, loop := l, st := l.st }
    | some (.printed, l) =>
      some { ending := .printed, loop := l, st := { l.st with out := l.st.out ++ l.messages } }

/-! ## Action commands -/

/-- The fields of `config` that the action commands read. -/
structure Config where
  ChannelID : GoString
  DefaultEmoji : GoString

/-- The payload that `handleError` decodes: the fields `ok` and `error`. -/
structure ApiStatus where
  OK : Bool
  Error : GoString
  deriving DecidableEq, Repr

/-- A POST of a JSON object to a method of the remote API. -/
structure PostRequest where
  /-- The method, as in `https://slack.com/api/<method>`. -/
  method : GoString
  /-- The entries of the map that is marshalled as the body. -/
  payload : List (GoString × GoString)
  deriving DecidableEq, Repr

/-- What `client.Do` comes to for a POST: an error, or a response, given by
what its body decodes to (the error of the JSON decoder, or the payload). -/
inductive Posted where
  | doError (err : GoString)
  | response (body : Except GoString ApiStatus)

/-- The result of an action command: the error returned (`none` is `nil`),
what was printed, and the requests that were sent. -/
structure ActionResult where
  err : Option GoString
  out : List GoString
  sent : List PostRequest

/-- Go's `fmt.Println(s)`. -/
def println (s : GoString) : GoString := s ++ "\n".toList

/-- The function `handleError(body)`, lines 785-797: the decoder's error, or
the payload's error string when `ok` is false (`fmt.Errorf` of a string
without verbs), or `nil`. -/
def handleError (body : Except GoString ApiStatus) : Option GoString :=
  match body with
  | .error err => some err
  | .ok response => if response.OK = false then some response.Error else none

/-- The function `sendMessage(message, threadTS)`, lines 247-273. -/
def sendMessage (config : Config) (post : PostRequest → Posted) (message threadTS : GoString) :
    ActionResult :=
  let slackMessage := [("channel".toList, config.ChannelID), ("text".toList, message)]
    ++ (if threadTS ≠ [] then [("thread_ts".toList, threadTS)] else [])
  let req : PostRequest := ⟨"chat.postMessage".toList, slackMessage⟩
  match post req with
  | .doError err => ⟨some err, [printlnErr "Error sending message:".toList err], [req]⟩
  | .response _ => ⟨none, [println "Message sent successfully".toList], [req]⟩

/-- The function `updateMessage(ts, message)`, lines 736-759. -/
def updateMessage (config : Config) (post : PostRequest → Posted) (ts message : GoString) :
    ActionResult :=
  let req : PostRequest := ⟨"chat.update".toList,
    [("channel".toList, config.ChannelID), ("ts".toList, ts), ("text".toList, message)]⟩
  match post req with
  | .doError err => ⟨some err, [printlnErr "Error updating message:".toList err], [req]⟩
  | .response _ => ⟨none, [println "Message updated successfully".toList], [req]⟩

/-- The function `deleteMessage(ts)`, lines 761-783. -/
def deleteMessage (config : Config) (post : PostRequest → Posted) (ts : GoString) :
    ActionResult :=
  let req : PostRequest := ⟨"chat.delete".toList,
    [("channel".toList, config.ChannelID), ("ts".toList, ts)]⟩
  match post req with
  | .doError err => ⟨some err, [printlnErr "Error deleting message:".toList err], [req]⟩
  | .response _ => ⟨none, [println "Message deleted successfully".toList], [req]⟩

/-- The function `addReaction(ts, emoji)`, lines 660-698. -/
def addReaction (config : Config) (post : PostRequest → Posted) (ts emoji : GoString) :
    ActionResult :=
  if ts = [] then ⟨some "Error: ts (timestamp) is required".toList, [], []⟩
  else
    let emoji1 :=
      if emoji = [] then
        if config.DefaultEmoji ≠ [] then config.DefaultEmoji else "white_check_mark".toList
      else emoji
    let req : PostRequest := ⟨"reactions.add".toList,
      [("channel".toList, config.ChannelID), ("name".toList, emoji1), ("timestamp".toList, ts)]⟩
    match post req with
    | .doError err => ⟨some ("Error adding reaction: ".toList ++ err), [], [req]⟩
    | .response body =>
      match handleError body with
      | some err => ⟨some ("Error response from API: ".toList ++ err), [], [req]⟩
      | none => ⟨none, [println "Reaction added successfully".toList], [req]⟩

/-- The function `removeReaction(ts, emoji)`, lines 700-734. -/
def removeReaction (config : Config) (post : PostRequest → Posted) (ts emoji : GoString) :
    ActionResult :=
  if ts = [] then ⟨some "Error: ts (timestamp) is required".toList, [], []⟩
  else
    let emoji1 := if emoji = [] then "white_check_mark".toList else emoji
    let req : PostRequest := ⟨"reactions.remove".toList,
      [("channel".toList, config.ChannelID), ("name".toList, emoji1), ("timestamp".toList, ts)]⟩
    match post req with
    | .doError err => ⟨some ("Error removing reaction: ".toList ++ err), [], [req]⟩
    | .response body =>
      match handleError body with
      | some err => ⟨some ("Error response from API: ".toList ++ err), [], [req]⟩
      | none => ⟨none, [println "Reaction removed successfully".toList], [req]⟩

/-! ## `getFile` -/

/-- The scan of Go's `path.Ext` from the end of the path: `rev` is the part
still to be scanned, reversed, and `acc` the part already passed. -/
def pathExtScan : List Char → GoString → GoString
  | [], _ => []
  | c :: rev, acc =>
    if c = '/' then []
    else if c = '.' then '.' :: acc
    else pathExtScan rev (c :: acc)

/-- Go's `path.Ext(path)`: the suffix from the last dot of the last element
of the path, empty when there is no dot. -/
def pathExt (path : GoString) : GoString := pathExtScan path.reverse []

/-- Go's `path.Base(path)`: the last element of the path, trailing slashes
removed; `.` for the empty path and `/` for a path of slashes only. -/
def pathBase (path : GoString) : GoString :=
  if path = [] then ".".toList
  else
    let stripped := (path.reverse.dropWhile (fun c => c == '/')).reverse
    let last := (stripped.reverse.takeWhile (fun c => c != '/')).reverse
    if last = [] then "/".toList else last

/-- The name tried at step `i` of the loop of `getFile`:
`fmt.Sprintf("%s(%d)%s", name, i, ext)`. -/
def numberedName (name ext : GoString) (i : Nat) : GoString :=
  name ++ "(".toList ++ formatInt (i : Int) ++ ")".toList ++ ext

/-- The loop of `getFile`, lines 640-646, from the counter `i`: the first
numbered name that `os.Stat` reports as not existing.  `existing` lists the
names for which `os.Stat` succeeds (for every other name it reports that the
file does not exist); `fuel` bounds the number of iterations and `none` means
the bound was reached. -/
def findFreeName (existing : List GoString) (name ext : GoString) : Nat → Nat → Option GoString
  | 0, _ => none
  | fuel + 1, i =>
    let newName := numberedName name ext i
    if newName ∉ existing then some newName
    else findFreeName existing name ext fuel (i + 1)

/-- Lines 635-647 of `getFile`: the name of the output file for the path of
the parsed URL. -/
def outputName (existing : List GoString) (fuel : Nat) (urlPath : GoString) : Option GoString :=
  let filename := pathBase urlPath
  if filename ∈ existing then
    let ext := pathExt filename
    let name := filename.take (filename.length - ext.length)
    findFreeName existing name ext fuel 1
  else some filename

/-- What `getFile` meets outside the program. -/
structure FileWorld where
  /-- The names in the working directory for which `os.Stat` succeeds. -/
  existing : List GoString
  /-- The error of `client.Do` for the URL, if any. -/
  doError : GoString → Option GoString
  /-- Go's `url.Parse`: its error, or the field `Path` of the parsed URL. -/
  parsePath : GoString → Except GoString GoString
  /-- The error of `os.Create` for a name, if any. -/
  createError : GoString → Option GoString

/-- The result of `getFile`: what was printed and the file that was created. -/
structure FileResult where
  out : List GoString
  created : Option GoString

/-- The function `getFile(fileURL)`, lines 617-658; `none` means the loop
needed more than `fuel` iterations. -/
def getFile (w : FileWorld) (fuel : Nat) (fileURL : GoString) : Option FileResult :=
  match w.doError fileURL with
  | some err => some ⟨[printlnErr "Error getting file:".toList err], none⟩
  | none =>
    match w.parsePath fileURL with
    | .error err => some ⟨[printlnErr "Error parsing URL:".toList err], none⟩
    | .ok urlPath =>
      match outputName w.existing fuel urlPath with
      | none => none
      | some filename =>
        match w.createError filename with
        | some err => some ⟨[printlnErr "Error creating file:".toList err], none⟩
        | none =>
          some ⟨[printlnErr "File downloaded successfully:".toList filename], some filename⟩

/-! ## Notions used to state the properties -/

/-- The calendar day after a date: the next day of the month, or the first of
the next month, or the first of January of the next year. -/
def nextDay (d : Date) : Date :=
  if d.day < daysIn d.month d.year then { d with day := d.day + 1 }
  else if d.month < 12 then { year := d.year, month := d.month + 1, day := 1 }
  else { year := d.year + 1, month := 1, day := 1 }

/-- A date as `time.Parse` returns it: month and day in range. -/
def Date.Valid (d : Date) : Prop :=
  1 ≤ d.month ∧ d.month ≤ 12 ∧ 1 ≤ d.day ∧ d.day ≤ daysIn d.month d.year

/-- A request is a channel-history request. -/
def Request.isHistory : Request → Bool
  | .history _ _ _ => true
  | _ => false

/-- The state `st2` comes from `st1` by issuing further requests, none of them
a history request. -/
def State.Grows (st1 st2 : State) : Prop :=
  ∃ extra, st2.requests = st1.requests ++ extra ∧ ∀ q ∈ extra, Request.isHistory q = false

/-- The selection test of a message: the filter is empty or occurs in the
text, and the message has files when only messages with files are wanted. -/
def selected (filter : GoString) (showFilesOnly : Bool) (msg : SlackMessageItem) : Bool :=
  (decide (filter = []) || contains msg.Text filter)
    && !(showFilesOnly && decide (msg.Files.length = 0))

/-- A run of `getUserName` over a list of identifiers, one call after the
other: the names returned and the final state. -/
def resolveAll (remote : Remote) : List GoString → State → List GoString × State
  | [], st => ([], st)
  | userID :: rest, st =>
    let r := getUserName remote userID st
    let rs := resolveAll remote rest r.2
    (r.1 :: rs.1, rs.2)

/-- The text `out` is `s` with every occurrence of the non-empty `term`, found
left to right and not overlapping, replaced by `hl`. -/
inductive Wrapped (term hl : GoString) : GoString → GoString → Prop where
  | done : Wrapped term hl [] []
  | hit (rest out : GoString) : Wrapped term hl rest out →
      Wrapped term hl (term ++ rest) (hl ++ out)
  | miss (c : Char) (cs out : GoString) : ¬ term <+: (c :: cs) → Wrapped term hl cs out →
      Wrapped term hl (c :: cs) (c :: out)

/-- The text lines of a message as rendered when each line of the text is
treated by `wrap`: the header line with the first text line, then one
indented line for each further text line. -/
def textLinesWith (env : Env) (wrap : GoString → GoString) (msg : SlackMessageItem)
    (userName edited reactions : GoString) : List GoString :=
  match split '\n' msg.Text with
  | [] => []
  | first :: rest =>
    (msg.Ts ++ " (".toList ++ env.formatTimestamp msg.Ts ++ ") ".toList ++ userName
        ++ ": ".toList ++ defaultColorStart ++ wrap first ++ edited ++ reactions ++ "\n".toList)
      :: rest.map (fun line => indent ++ defaultColorStart ++ wrap line ++ "\n".toList)

/-- The remote lookup of a user failed: a transport error, an unreadable or
undecodable body, or a payload with `ok = false`. -/
def lookupFailed : Fetched UserProfile → Bool
  | .ok userProfile => !userProfile.OK
  | _ => true

/-- A call `getUserName(userID, userCache)` from the state `st` resolves the
identifier: it is in one of the caches, or the remote lookup succeeds. -/
def resolves (remote : Remote) (userID : GoString) (st : State) : Bool :=
  (st.userCache userID).isSome || (st.configUserCache userID).isSome
    || !lookupFailed (remote.usersInfo st.requests userID)

/-! ## Sample data -/

/-- An emoji table with the one entry `x`, and the identity for timestamps. -/
def sampleEnv : Env :=
  ⟨fun name => if name = "x".toList then some "&#x2705;".toList else none, fun ts => ts⟩

/-- A state with empty caches, nothing requested and nothing printed. -/
def sampleState : State := ⟨fun _ => none, fun _ => none, [], 0, []⟩

/-- A message of user `U1` with the given timestamp and text. -/
def sampleMessage (ts text : String) : SlackMessageItem :=
  ⟨"U1".toList, [], text.toList, ts.toList, [], [], [], [], []⟩

/-- A page of five messages, newest first, with more announced and a cursor. -/
def samplePage : SlackMessagesResponse :=
  ⟨[sampleMessage "1704067205" "five", sampleMessage "1704067204" "four",
    sampleMessage "1704067203" "three", sampleMessage "1704067202" "two",
    sampleMessage "1704067201" "one"], true, "bmV4dA==".toList⟩

/-- A server that knows every user as `Ann`, answers every history request
with `samplePage` and has no thread replies. -/
def sampleRemote : Remote :=
  ⟨fun _ _ => .ok ⟨true, "Ann".toList⟩, fun _ _ => .ok samplePage, fun _ _ => .ok []⟩

/-! ## Notions for thread replies, code points and file names -/

/-- A message of a thread response is kept as a reply: its `ts` differs from
the thread identifier and its text passes the filter. -/
def keptReply (threadTs filter : GoString) (msg : SlackMessageItem) : Bool :=
  decide (msg.Ts ≠ threadTs) && (decide (filter = []) || contains msg.Text filter)

/-- What a reply carries of the message it was made from: user id, text,
`ts`, reactions and files. -/
def SlackMessageReply.carried (r : SlackMessageReply) :
    GoString × GoString × GoString × List SlackReaction × List SlackFile :=
  (r.UserID, r.Text, r.Ts, r.Reactions, r.Files)

/-- The same five fields of a message. -/
def SlackMessageItem.carried (m : SlackMessageItem) :
    GoString × GoString × GoString × List SlackReaction × List SlackFile :=
  (m.UserID, m.Text, m.Ts, m.Reactions, m.Files)

/-- The header line of a reply as the message formatter is to render it for
the author name `name`, with the edited marker `edited`. -/
def replyHeader (env : Env) (search : GoString) (reply : SlackMessageReply)
    (name edited : GoString) : GoString :=
  "  ↳ ".toList ++ reply.Ts ++ " (".toList ++ env.formatTimestamp reply.Ts ++ ") ".toList
    ++ name ++ ": ".toList ++ defaultColorStart
    ++ (if search ≠ [] then
          replaceAll ((split '\n' reply.Text).headD []) search (wrapTerm search)
        else (split '\n' reply.Text).headD [])
    ++ edited ++ getReactionsString env.emojiList reply.Reactions ++ "\n".toList

/-- The value of a string of base-16 digits, most significant first. -/
def hexNat (digits : GoString) : Nat :=
  digits.foldl (fun acc c => acc * 16 + (hexVal c).getD 0) 0

/-- The string `H` is a hexadecimal spelling of `v`: at least one digit, only
digits `0-9`, `a-f`, `A-F`, and the value `v`. -/
def IsHexSpelling (H : GoString) (v : Nat) : Prop :=
  H ≠ [] ∧ (∀ c ∈ H, (hexVal c).isSome = true) ∧ hexNat H = v

/-- The string `s` is a base-16 integer of value `n`: an optional sign and a
hexadecimal spelling of the absolute value. -/
def IsHexInteger (s : GoString) (n : Int) : Prop :=
  ∃ (H : GoString) (v : Nat), IsHexSpelling H v
    ∧ (((s = H ∨ s = '+' :: H) ∧ n = (v : Int)) ∨ (s = '-' :: H ∧ n = -(v : Int)))

/-- The value a string of decimal digits stands for. -/
def decimalValue (digits : GoString) : Nat :=
  digits.foldl (fun acc c => acc * 10 + (c.toNat - 48)) 0

/-! ## Sample data for threads and action commands -/

/-- A parent message with a thread, edited by `U7`. -/
def sampleParent : SlackMessageItem :=
  ⟨"U1".toList, [], "release notes".toList, "1704067300".toList, "1704067300".toList, [], [], [],
    "U7".toList⟩

/-- A reply in the thread of `sampleParent`, by `U9`, edited by `U9`. -/
def sampleReplyMessage : SlackMessageItem :=
  ⟨"U9".toList, [], "looks good".toList, "1704067301".toList, "1704067300".toList, [], [], [],
    "U9".toList⟩

/-- A server whose history holds `sampleParent`, whose thread holds the parent
and `sampleReplyMessage`, and that knows every user as `Ann`. -/
def sampleThreadRemote : Remote :=
  ⟨fun _ _ => .ok ⟨true, "Ann".toList⟩, fun _ _ => .ok ⟨[sampleParent], false, []⟩,
    fun _ _ => .ok [sampleParent, sampleReplyMessage]⟩

/-- The same server, except that every user lookup is answered `ok = false`. -/
def sampleSilentRemote : Remote :=
  ⟨fun _ _ => .ok ⟨false, []⟩, fun _ _ => .ok ⟨[sampleParent], false, []⟩,
    fun _ _ => .ok [sampleParent, sampleReplyMessage]⟩

/-- The same server, except that the lookup of a user fails (`ok = false`)
the first time and gives `Ann` once that user was looked up before. -/
def sampleFlakyRemote : Remote :=
  ⟨fun log userID =>
      if Request.usersInfo userID ∈ log then .ok ⟨true, "Ann".toList⟩ else .ok ⟨false, []⟩,
    fun _ _ => .ok ⟨[sampleParent], false, []⟩,
    fun _ _ => .ok [sampleParent, sampleReplyMessage]⟩

/-- A config with a channel and no default emoji. -/
def sampleConfig : Config := ⟨"C012AB3CD".toList, []⟩

/-- A server that answers every POST with `ok = false`, `channel_not_found`. -/
def sampleRefusal : PostRequest → Posted :=
  fun _ => .response (.ok ⟨false, "channel_not_found".toList⟩)

/-! ## The calendar -/

theorem isDigit_ne_colon {c : Char} (h : isDigit c = true) : c ≠ ':' := by
  rintro rfl
  revert h
  decide

theorem isLeap_iff (y : Nat) :
    isLeap y = true ↔ (y % 4 = 0 ∧ (y % 100 ≠ 0 ∨ y % 400 = 0)) := by
  simp [isLeap]

theorem daysBeforeYear_succ (y : Nat) :
    daysBeforeYear (y + 1) = daysBeforeYear y + 365 + (if isLeap y = true then 1 else 0) := by
  have e4 : (y + 1 + 3) / 4 = (y + 3) / 4 + (if y % 4 = 0 then 1 else 0) := by
    split_ifs <;> omega
  have e100 : (y + 1 + 99) / 100 = (y + 99) / 100 + (if y % 100 = 0 then 1 else 0) := by
    split_ifs <;> omega
  have e400 : (y + 1 + 399) / 400 = (y + 399) / 400 + (if y % 400 = 0 then 1 else 0) := by
    split_ifs <;> omega
  have hle : (y + 99) / 100 ≤ (y + 3) / 4 := by omega
  have i1 : y % 400 = 0 → y % 100 = 0 := by omega
  have i2 : y % 100 = 0 → y % 4 = 0 := by omega
  have hl : (if isLeap y = true then 1 else 0)
      = if (y % 4 = 0 ∧ (y % 100 ≠ 0 ∨ y % 400 = 0)) then 1 else 0 := by
    simp only [isLeap_iff]
  unfold daysBeforeYear
  rw [e4, e100, e400, hl]
  generalize (y + 3) / 4 = a at *
  generalize (y + 99) / 100 = b at *
  generalize (y + 399) / 400 = c at *
  by_cases h4 : y % 4 = 0 <;> by_cases h100 : y % 100 = 0 <;> by_cases h400 : y % 400 = 0 <;>
    simp only [h4, h100, h400, if_true, if_false, true_and, false_and, not_true_eq_false,
      not_false_eq_true, or_true, or_false, false_or, ne_eq, true_implies] at * <;> omega

theorem dateUnix_addDay (d : Date) (h : 1 ≤ d.day) : dateUnix (addDay d) = dateUnix d + 86400 := by
  unfold dateUnix addDay
  simp only
  have h1 : d.day + 1 - 1 = (d.day - 1) + 1 := by omega
  rw [h1]
  push_cast
  ring

theorem dateUnix_nextDay (d : Date) (h : d.Valid) : dateUnix (nextDay d) = dateUnix d + 86400 := by
  obtain ⟨hm1, hm12, hd1, hd⟩ := h
  rw [← dateUnix_addDay d hd1]
  unfold nextDay
  split
  · rfl
  · rename_i hlt
    have hday : d.day = daysIn d.month d.year := by omega
    obtain ⟨y, m, dd⟩ := d
    simp only at hm1 hm12 hd1 hday ⊢
    subst hday
    unfold dateUnix addDay
    simp only
    have hy := daysBeforeYear_succ y
    congr 2
    interval_cases m <;> cases hl : isLeap y <;>
      simp [daysIn, daysBefore, hl] at hy ⊢ <;> omega

/-! ## Splitting and parsing -/

theorem split_of_not_mem (sep : Char) (s : GoString) (h : sep ∉ s) : split sep s = [s] := by
  induction s with
  | nil => rfl
  | cons c cs ih =>
    simp only [List.mem_cons, not_or] at h
    have hc : c ≠ sep := fun e => h.1 e.symm
    simp [split, hc, ih h.2]

theorem split_append_sep (sep : Char) (a b : GoString) (h : sep ∉ a) :
    split sep (a ++ sep :: b) = a :: split sep b := by
  induction a with
  | nil => simp [split]
  | cons c cs ih =>
    simp only [List.mem_cons, not_or] at h
    have hc : c ≠ sep := fun e => h.1 e.symm
    simp [split, hc, ih h.2]

theorem split_ne_nil (sep : Char) (s : GoString) : split sep s ≠ [] := by
  cases s with
  | nil => simp [split]
  | cons c cs =>
    unfold split
    split_ifs
    · simp
    · split <;> simp

theorem parseDate_some {s : GoString} {d : Date} (h : parseDate s = some d) :
    d.Valid ∧ ':' ∉ s ∧ s ≠ [] := by
  unfold parseDate at h
  split at h
  · rename_i y1 y2 y3 y4 m1 m2 d1 d2
    split_ifs at h with hd
    simp only [Bool.and_eq_true] at hd
    obtain ⟨⟨⟨⟨⟨⟨⟨h1, h2⟩, h3⟩, h4⟩, h5⟩, h6⟩, h7⟩, h8⟩ := hd
    simp only at h
    split_ifs at h with hm hday
    simp only [Option.some.injEq] at h
    subst h
    refine ⟨⟨by simp only; omega, by simp only; omega, by simp only; omega, by simp only; omega⟩,
      ?_, by simp⟩
    simp only [List.mem_cons, List.mem_nil_iff, or_false, not_or]
    have n1 := isDigit_ne_colon h1
    have n2 := isDigit_ne_colon h2
    have n3 := isDigit_ne_colon h3
    have n4 := isDigit_ne_colon h4
    have n5 := isDigit_ne_colon h5
    have n6 := isDigit_ne_colon h6
    have n7 := isDigit_ne_colon h7
    have n8 := isDigit_ne_colon h8
    exact ⟨n1.symm, n2.symm, n3.symm, n4.symm, by decide, n5.symm, n6.symm, by decide,
      n7.symm, n8.symm⟩
  · simp at h

theorem parseDateRange_single {s : GoString} {d : Date} (h : parseDate s = some d) :
    parseDateRange s = .ok (formatInt (dateUnix d), formatInt (dateUnix (addDay d) - 1)) := by
  obtain ⟨_, hc, hne⟩ := parseDate_some h
  unfold parseDateRange
  rw [if_pos hne, split_of_not_mem _ _ hc]
  simp only [h]

theorem parseDateRange_pair {a b : GoString} {da db : Date} (ha : parseDate a = some da)
    (hb : parseDate b = some db) :
    parseDateRange (a ++ ':' :: b)
      = .ok (formatInt (dateUnix da), formatInt (dateUnix (addDay db) - 1)) := by
  obtain ⟨_, hca, _⟩ := parseDate_some ha
  obtain ⟨_, hcb, _⟩ := parseDate_some hb
  unfold parseDateRange
  rw [if_pos (by simp), split_append_sep _ _ _ hca, split_of_not_mem _ _ hcb]
  simp only [ha, hb]

theorem formatInt_ne_nil (n : Int) : formatInt n ≠ [] := by
  have key : ∀ (fuel k : Nat) (ds : List Char), Nat.toDigitsCore 10 (fuel + 1) k ds ≠ [] := by
    intro fuel
    induction fuel with
    | zero =>
      intro k ds
      simp only [Nat.toDigitsCore]
      split_ifs <;> simp
    | succ f ih =>
      intro k ds
      rw [Nat.toDigitsCore]
      split_ifs
      · simp
      · exact ih _ _
  cases n with
  | ofNat k => exact key k k []
  | negSucc k => simp [formatInt]

/-! ## Requests issued while a page is processed -/

theorem State.Grows.refl (st : State) : st.Grows st := ⟨[], by simp, by simp⟩

theorem State.Grows.trans {a b c : State} (h1 : a.Grows b) (h2 : b.Grows c) : a.Grows c := by
  obtain ⟨e1, he1, hn1⟩ := h1
  obtain ⟨e2, he2, hn2⟩ := h2
  refine ⟨e1 ++ e2, by rw [he2, he1, List.append_assoc], ?_⟩
  intro q hq
  rcases List.mem_append.1 hq with h | h
  · exact hn1 q h
  · exact hn2 q h

theorem State.Grows.of_requests_eq {a b : State} (h : b.requests = a.requests) : a.Grows b :=
  ⟨[], by simp [h], by simp⟩

theorem getUserName_grows (remote : Remote) (userID : GoString) (st : State) :
    st.Grows (getUserName remote userID st).2 := by
  unfold getUserName
  split_ifs
  · exact State.Grows.refl st
  · split
    · exact State.Grows.refl st
    · split
      · exact State.Grows.of_requests_eq rfl
      · have hsend : st.Grows (st.send (.usersInfo userID)) :=
          ⟨[.usersInfo userID], rfl, by simp [Request.isHistory]⟩
        simp only
        split
        · exact hsend.trans (State.Grows.of_requests_eq rfl)
        · exact hsend.trans (State.Grows.of_requests_eq rfl)
        · exact hsend.trans (State.Grows.of_requests_eq rfl)
        · split_ifs
          · exact hsend.trans (State.Grows.of_requests_eq rfl)
          · exact hsend

theorem collectReplies_grows (remote : Remote) (threadTs filter : GoString)
    (msgs : List SlackMessageItem) (replies : List SlackMessageReply) (st : State) :
    st.Grows (collectReplies remote threadTs filter msgs replies st).2 := by
  induction msgs generalizing replies st with
  | nil => exact State.Grows.refl st
  | cons msg rest ih =>
    unfold collectReplies
    split_ifs
    · exact (getUserName_grows remote msg.UserID st).trans (ih _ _)
    · exact ih _ _
    · exact ih _ _

theorem getThreadReplies_grows (remote : Remote) (threadTs filter search : GoString)
    (st : State) : st.Grows (getThreadReplies remote threadTs filter search st).2 := by
  have hsend : st.Grows (st.send (.replies threadTs)) :=
    ⟨[.replies threadTs], rfl, by simp [Request.isHistory]⟩
  unfold getThreadReplies
  simp only
  split
  · exact hsend
  · exact hsend.trans (collectReplies_grows _ _ _ _ _ _)

theorem renderReplies_grows (env : Env) (remote : Remote) (search : GoString)
    (replies : List SlackMessageReply) (messages : List GoString) (st : State) :
    st.Grows (renderReplies env remote search replies messages st).2 := by
  induction replies generalizing messages st with
  | nil => exact State.Grows.refl st
  | cons reply rest ih =>
    unfold renderReplies
    exact (getUserName_grows remote reply.UserID st).trans (ih _ _)

theorem acceptMessage_grows (env : Env) (remote : Remote) (search filter : GoString)
    (msg : SlackMessageItem) (l : Loop) :
    l.st.Grows (acceptMessage env remote search filter msg l).st := by
  unfold acceptMessage
  simp only
  refine (getUserName_grows remote msg.UserID l.st).trans ?_
  by_cases ht : msg.ThreadTS ≠ []
  · rw [if_pos ht]
    refine (getThreadReplies_grows remote msg.ThreadTS filter search _).trans ?_
    split
    · exact renderReplies_grows _ _ _ _ _ _
    · exact State.Grows.refl _
  · rw [if_neg ht]
    exact State.Grows.refl _

theorem processMessages_grows (env : Env) (remote : Remote) (limit : Int)
    (search filter : GoString) (showFilesOnly : Bool) (msgs : List SlackMessageItem) (l : Loop) :
    l.st.Grows (processMessages env remote limit search filter showFilesOnly msgs l).st := by
  induction msgs generalizing l with
  | nil => exact State.Grows.refl _
  | cons msg rest ih =>
    unfold processMessages
    split_ifs
    · exact State.Grows.refl _
    · exact ih l
    · exact (acceptMessage_grows env remote search filter msg l).trans (ih _)
    · exact ih l

theorem processMessages_cursor (env : Env) (remote : Remote) (limit : Int)
    (search filter : GoString) (showFilesOnly : Bool) (msgs : List SlackMessageItem) (l : Loop) :
    (processMessages env remote limit search filter showFilesOnly msgs l).cursor = l.cursor := by
  induction msgs generalizing l with
  | nil => rfl
  | cons msg rest ih =>
    unfold processMessages
    split_ifs
    · rfl
    · exact ih l
    · rw [ih]
      rfl
    · exact ih l

/-! ## The loop of `fetchMessages` -/

/-- The loop variables after the page `resp` was processed from `l`. -/
theorem fetchLoop_ok (env : Env) (remote : Remote) (limit : Int)
    (dateRange oldest latest search filter : GoString) (showFilesOnly : Bool) (fuel : Nat)
    (l : Loop) (resp : SlackMessagesResponse) (hc : l.cursor = [])
    (hr : remote.history l.st.requests (historyRequest limit oldest latest l.cursor) = .ok resp) :
    fetchLoop env remote limit dateRange oldest latest search filter showFilesOnly (fuel + 1) l
      = some (.printed,
          { processMessages env remote limit search filter showFilesOnly resp.Messages.reverse
              { l with st := l.st.send (historyRequest limit oldest latest l.cursor) } with
            hasMore := false, cursor := resp.NextCursor }) := by
  unfold fetchLoop
  simp only [hr]
  have hcur := processMessages_cursor env remote limit search filter showFilesOnly
    resp.Messages.reverse { l with st := l.st.send (historyRequest limit oldest latest l.cursor) }
  simp only [hc] at hcur ⊢
  simp [hcur]

theorem fetchLoop_isSome (env : Env) (remote : Remote) (limit : Int)
    (dateRange oldest latest search filter : GoString) (showFilesOnly : Bool) (fuel : Nat)
    (l : Loop) (hc : l.cursor = []) :
    (fetchLoop env remote limit dateRange oldest latest search filter showFilesOnly
      (fuel + 1) l).isSome = true := by
  cases hr : remote.history l.st.requests (historyRequest limit oldest latest l.cursor) with
  | ok resp => rw [fetchLoop_ok _ _ _ _ _ _ _ _ _ _ _ resp hc hr]; rfl
  | doError e => unfold fetchLoop; simp [hr]
  | readError e => unfold fetchLoop; simp [hr]
  | decodeError e => unfold fetchLoop; simp [hr]

/-- From an empty cursor the loop ends within one iteration, and the requests
it issues are one history request followed by requests that are not history
requests. -/
theorem fetchLoop_requests (env : Env) (remote : Remote) (limit : Int)
    (dateRange oldest latest search filter : GoString) (showFilesOnly : Bool) (fuel : Nat)
    (l : Loop) (hc : l.cursor = []) :
    ∃ e l1 extra,
      fetchLoop env remote limit dateRange oldest latest search filter showFilesOnly (fuel + 1) l
        = some (e, l1)
      ∧ l1.st.requests = l.st.requests ++ historyRequest limit oldest latest [] :: extra
      ∧ ∀ q ∈ extra, Request.isHistory q = false := by
  cases hr : remote.history l.st.requests (historyRequest limit oldest latest l.cursor) with
  | ok resp =>
    rw [fetchLoop_ok _ _ _ _ _ _ _ _ _ _ _ resp hc hr]
    obtain ⟨extra, he, hn⟩ := processMessages_grows env remote limit search filter showFilesOnly
      resp.Messages.reverse { l with st := l.st.send (historyRequest limit oldest latest l.cursor) }
    refine ⟨_, _, extra, rfl, ?_, hn⟩
    simp only [State.send, hc] at he ⊢
    rw [he, List.append_assoc, List.singleton_append]
  | doError e =>
    unfold fetchLoop
    simp only [hr]
    exact ⟨_, _, [], rfl, by simp [State.send, State.print, hc], by simp⟩
  | readError e =>
    unfold fetchLoop
    simp only [hr]
    exact ⟨_, _, [], rfl, by simp [State.send, State.print, hc], by simp⟩
  | decodeError e =>
    unfold fetchLoop
    simp only [hr]
    exact ⟨_, _, [], rfl, by simp [State.send, State.print, hc], by simp⟩

/-- With bounds parsed, a run of `fetchMessages` ends whatever the fuel (one
iteration is enough), and the requests it issues are one history request, for
the bounds and no cursor, followed by requests that are not history requests. -/
theorem fetchMessages_requests (env : Env) (remote : Remote) (fuel : Nat) (limit : Int)
    (dateRange search filter oldest latest : GoString) (showFilesOnly : Bool) (st0 : State)
    (hp : parseDateRange dateRange = .ok (oldest, latest)) :
    ∃ r extra, fetchMessages env remote (fuel + 1) limit dateRange search filter showFilesOnly st0
        = some r
      ∧ r.st.requests = st0.requests ++ historyRequest limit oldest latest [] :: extra
      ∧ ∀ q ∈ extra, Request.isHistory q = false := by
  unfold fetchMessages
  simp only [hp]
  obtain ⟨e, l1, extra, hrun, hreq, hn⟩ := fetchLoop_requests env remote limit dateRange oldest
    latest search filter showFilesOnly fuel
    ⟨[], decide (dateRange ≠ []), 0, [], [], { st0 with userCache := st0.configUserCache }⟩ rfl
  rw [hrun]
  cases e with
  | aborted => exact ⟨_, extra, rfl, hreq, hn⟩
  | printed => exact ⟨_, extra, rfl, hreq, hn⟩

theorem historyRequest_bounds (limit : Int) (x y : Int) :
    historyRequest limit (formatInt x) (formatInt y) []
      = .history limit (some (formatInt x, formatInt y)) none := by
  simp [historyRequest, formatInt_ne_nil]

/-! ## The date range -/

/-- C1: for valid date strings `a` and `b` (those `time.Parse` accepts, as the
dates `A` and `B`), the range parsing of `fetchMessages` gives for the string
`a` the bounds `unix(A)` and `unix(A + 1 day) - 1`, and for the string `a:b`
the bounds `unix(A)` and `unix(B + 1 day) - 1`, as decimal strings; a single
date gives the bounds of the range from it to itself, the upper bound is
midnight of the end date plus 86399, and the first request of the run is the
history request carrying these two strings. -/
theorem date_range_bounds (a b : GoString) (A B : Date)
    (ha : parseDate a = some A) (hb : parseDate b = some B) :
    parseDateRange a = .ok (formatInt (dateUnix A), formatInt (dateUnix (nextDay A) - 1))
    ∧ parseDateRange (a ++ ':' :: b)
        = .ok (formatInt (dateUnix A), formatInt (dateUnix (nextDay B) - 1))
    ∧ parseDateRange a = parseDateRange (a ++ ':' :: a)
    ∧ dateUnix (nextDay B) - 1 = dateUnix B + 86399
    ∧ (∀ (env : Env) (remote : Remote) (fuel : Nat) (limit : Int) (search filter : GoString)
        (showFilesOnly : Bool) (st0 : State),
        ∃ r rest,
          fetchMessages env remote (fuel + 1) limit (a ++ ':' :: b) search filter showFilesOnly st0
            = some r
          ∧ r.st.requests = st0.requests
              ++ Request.history limit
                  (some (formatInt (dateUnix A), formatInt (dateUnix (nextDay B) - 1))) none
                :: rest)
    ∧ (∀ (env : Env) (remote : Remote) (fuel : Nat) (limit : Int) (search filter : GoString)
        (showFilesOnly : Bool) (st0 : State),
        ∃ r rest,
          fetchMessages env remote (fuel + 1) limit a search filter showFilesOnly st0 = some r
          ∧ r.st.requests = st0.requests
              ++ Request.history limit
                  (some (formatInt (dateUnix A), formatInt (dateUnix (nextDay A) - 1))) none
                :: rest) := by
  have hA := (parseDate_some ha).1
  have hB := (parseDate_some hb).1
  have eA : dateUnix (addDay A) = dateUnix (nextDay A) := by
    rw [dateUnix_addDay A hA.2.2.1, dateUnix_nextDay A hA]
  have eB : dateUnix (addDay B) = dateUnix (nextDay B) := by
    rw [dateUnix_addDay B hB.2.2.1, dateUnix_nextDay B hB]
  have h1 := parseDateRange_single ha
  have h2 := parseDateRange_pair ha hb
  have h3 := parseDateRange_pair ha ha
  rw [eA] at h1 h3
  rw [eB] at h2
  refine ⟨h1, h2, by rw [h1, h3], by rw [dateUnix_nextDay B hB]; ring, ?_, ?_⟩
  · intro env remote fuel limit search filter showFilesOnly st0
    obtain ⟨r, extra, hr, hreq, _⟩ := fetchMessages_requests env remote fuel limit
      (a ++ ':' :: b) search filter _ _ showFilesOnly st0 h2
    rw [historyRequest_bounds] at hreq
    exact ⟨r, extra, hr, hreq⟩
  · intro env remote fuel limit search filter showFilesOnly st0
    obtain ⟨r, extra, hr, hreq, _⟩ := fetchMessages_requests env remote fuel limit
      a search filter _ _ showFilesOnly st0 h1
    rw [historyRequest_bounds] at hreq
    exact ⟨r, extra, hr, hreq⟩

theorem date_range_bounds_witness :
    parseDate "2024-02-28".toList = some ⟨2024, 2, 28⟩
    ∧ parseDate "2024-02-29".toList = some ⟨2024, 2, 29⟩
    ∧ parseDateRange ("2024-02-28".toList ++ ':' :: "2024-02-29".toList)
        = .ok ("1709078400".toList, "1709251199".toList)
    ∧ parseDateRange "2024-02-28".toList = .ok ("1709078400".toList, "1709164799".toList) :=
  have h := date_range_bounds "2024-02-28".toList "2024-02-29".toList ⟨2024, 2, 28⟩ ⟨2024, 2, 29⟩
    (by decide) (by decide)
  ⟨by decide, by decide, h.2.1, h.1⟩

/-- The messages `fetchMessages` prints for a date range it rejects. -/
theorem parseDateRange_error (dateRange : GoString) (hne : dateRange ≠ [])
    (hbad : 2 < (split ':' dateRange).length ∨ ∃ tok ∈ split ':' dateRange, parseDate tok = none) :
    ∃ msg, parseDateRange dateRange = .error msg
      ∧ msg ∈ ["Invalid date format. Use YYYY-MM-DD.\n".toList,
               "Invalid start date format. Use YYYY-MM-DD.\n".toList,
               "Invalid end date format. Use YYYY-MM-DD.\n".toList,
               "Invalid date range format. Use YYYY-MM-DD or YYYY-MM-DD:YYYY-MM-DD.\n".toList] := by
  unfold parseDateRange
  rw [if_pos hne]
  rcases hs : split ':' dateRange with _ | ⟨d0, _ | ⟨d1, _ | ⟨d2, rest⟩⟩⟩
  · exact ⟨_, rfl, by simp⟩
  · rw [hs] at hbad
    have h0 : parseDate d0 = none := by
      rcases hbad with h | ⟨tok, htok, hnone⟩
      · simp at h
      · simp only [List.mem_singleton] at htok
        rw [← htok]
        exact hnone
    simp only [h0]
    exact ⟨_, rfl, by simp⟩
  · rw [hs] at hbad
    cases h0 : parseDate d0 with
    | none =>
      simp only [h0]
      exact ⟨_, rfl, by simp⟩
    | some a =>
      have h1 : parseDate d1 = none := by
        rcases hbad with h | ⟨tok, htok, hnone⟩
        · simp at h
        · simp only [List.mem_cons, List.mem_nil_iff, or_false] at htok
          rcases htok with e | e
          · rw [e, h0] at hnone
            exact absurd hnone (by simp)
          · rw [← e]
            exact hnone
      simp only [h0, h1]
      exact ⟨_, rfl, by simp⟩
  · exact ⟨_, rfl, by simp⟩

/-- C2: for a non-empty date range that splits on `:` into more than two
tokens, or one of whose tokens `time.Parse` rejects, `fetchMessages` fails
before its loop, whatever the fuel: no bounds are produced, the run is
aborted, no request is issued, no line is rendered, no message is accepted,
the caches are untouched, and all that is printed is one of the four error
messages. -/
theorem malformed_date_range_fails (env : Env) (remote : Remote) (fuel : Nat) (limit : Int)
    (dateRange search filter : GoString) (showFilesOnly : Bool) (st0 : State)
    (hne : dateRange ≠ [])
    (hbad : 2 < (split ':' dateRange).length ∨ ∃ tok ∈ split ':' dateRange, parseDate tok = none) :
    (∀ bounds, parseDateRange dateRange ≠ .ok bounds)
    ∧ ∃ r msg, fetchMessages env remote fuel limit dateRange search filter showFilesOnly st0 = some r
        ∧ r.ending = .aborted
        ∧ r.st.requests = st0.requests
        ∧ r.loop.messages = []
        ∧ r.loop.accepted = []
        ∧ r.st.userCache = st0.userCache
        ∧ r.st.configUserCache = st0.configUserCache
        ∧ r.st.saves = st0.saves
        ∧ r.st.out = st0.out ++ [msg]
        ∧ msg ∈ ["Invalid date format. Use YYYY-MM-DD.\n".toList,
                 "Invalid start date format. Use YYYY-MM-DD.\n".toList,
                 "Invalid end date format. Use YYYY-MM-DD.\n".toList,
                 "Invalid date range format. Use YYYY-MM-DD or YYYY-MM-DD:YYYY-MM-DD.\n".toList] := by
  obtain ⟨msg, hmsg, hmem⟩ := parseDateRange_error dateRange hne hbad
  refine ⟨fun bounds h => ?_, ?_⟩
  · rw [hmsg] at h
    cases h
  unfold fetchMessages
  simp only [hmsg]
  exact ⟨_, msg, rfl, rfl, rfl, rfl, rfl, rfl, rfl, rfl, rfl, hmem⟩

theorem malformed_date_range_fails_witness :
    "2024-01-01:2024-13-01".toList ≠ []
    ∧ (2 < (split ':' "2024-01-01:2024-13-01".toList).length
        ∨ ∃ tok ∈ split ':' "2024-01-01:2024-13-01".toList, parseDate tok = none)
    ∧ ∃ r msg, fetchMessages ⟨fun _ => none, fun ts => ts⟩
          ⟨fun _ _ => .doError [], fun _ _ => .doError [], fun _ _ => .error []⟩ 0 5
          "2024-01-01:2024-13-01".toList [] [] false ⟨fun _ => none, fun _ => none, [], 0, []⟩
          = some r
        ∧ r.ending = .aborted
        ∧ r.st.requests = []
        ∧ r.st.out = [] ++ [msg] :=
  have hb : 2 < (split ':' "2024-01-01:2024-13-01".toList).length
      ∨ ∃ tok ∈ split ':' "2024-01-01:2024-13-01".toList, parseDate tok = none :=
    Or.inr ⟨"2024-13-01".toList, by decide, by decide⟩
  have h := malformed_date_range_fails ⟨fun _ => none, fun ts => ts⟩
    ⟨fun _ _ => .doError [], fun _ _ => .doError [], fun _ _ => .error []⟩ 0 5
    "2024-01-01:2024-13-01".toList [] [] false ⟨fun _ => none, fun _ => none, [], 0, []⟩
    (by decide) hb
  ⟨by decide, hb, by
    obtain ⟨r, msg, h1, h2, h3, _, _, _, _, _, h4, _⟩ := h.2
    exact ⟨r, msg, h1, h2, h3, h4⟩⟩

/-! ## The messages accepted from a page -/

theorem acceptMessage_accepted (env : Env) (remote : Remote) (search filter : GoString)
    (msg : SlackMessageItem) (l : Loop) :
    (acceptMessage env remote search filter msg l).accepted = l.accepted ++ [msg]
    ∧ (acceptMessage env remote search filter msg l).totalFetched = l.totalFetched + 1 :=
  ⟨rfl, rfl⟩

theorem selected_iff (filter : GoString) (showFilesOnly : Bool) (msg : SlackMessageItem) :
    selected filter showFilesOnly msg = true
      ↔ (filter = [] ∨ contains msg.Text filter = true)
        ∧ ¬ (showFilesOnly = true ∧ msg.Files.length = 0) := by
  cases showFilesOnly <;> simp [selected]

/-- The loop over a page accepts the selected messages in order for as long
as the counter is below the limit. -/
theorem processMessages_accepted (env : Env) (remote : Remote) (limit : Int)
    (search filter : GoString) (showFilesOnly : Bool) (msgs : List SlackMessageItem) (l : Loop) :
    (processMessages env remote limit search filter showFilesOnly msgs l).accepted
        = l.accepted
          ++ (msgs.filter (selected filter showFilesOnly)).take (limit.toNat - l.totalFetched)
    ∧ (processMessages env remote limit search filter showFilesOnly msgs l).totalFetched
        = l.totalFetched
          + ((msgs.filter (selected filter showFilesOnly)).take
              (limit.toNat - l.totalFetched)).length := by
  induction msgs generalizing l with
  | nil => simp [processMessages]
  | cons msg rest ih =>
    unfold processMessages
    split_ifs with hlim hsel hfiles
    · have h0 : limit.toNat - l.totalFetched = 0 := by omega
      simp [h0]
    · have hs : ¬ selected filter showFilesOnly msg = true := by
        rw [selected_iff]
        exact fun h => h.2 hfiles
      rw [List.filter_cons_of_neg hs]
      exact ih l
    · have hs : selected filter showFilesOnly msg = true :=
        (selected_iff filter showFilesOnly msg).2 ⟨hsel, hfiles⟩
      rw [List.filter_cons_of_pos hs]
      obtain ⟨n, hn⟩ : ∃ n, limit.toNat - l.totalFetched = n + 1 := ⟨limit.toNat - l.totalFetched - 1, by omega⟩
      have ha := acceptMessage_accepted env remote search filter msg l
      have hn1 : limit.toNat - (acceptMessage env remote search filter msg l).totalFetched = n := by
        rw [ha.2]
        omega
      obtain ⟨i1, i2⟩ := ih (acceptMessage env remote search filter msg l)
      rw [i1, i2, hn1, hn, ha.1, ha.2]
      simp only [List.take_succ_cons, List.append_assoc, List.singleton_append, List.length_cons,
        true_and]
      omega
    · have hs : ¬ selected filter showFilesOnly msg = true := by
        rw [selected_iff]
        exact fun h => hsel h.1
      rw [List.filter_cons_of_neg hs]
      exact ih l

/-- C3: when the date range parses and the server answers the history request
with a page, the run ends (one iteration of fuel is enough) and the messages
it accepted are exactly the first `limit` elements of the selected messages
of the reversed page, in that (chronological) order; their number is the
counter `totalFetched`, never exceeds `limit`, is 0 for a limit that is not
positive, and with limit 2 and a page of five selected messages the two
chronologically earliest are accepted. -/
theorem accepted_messages (env : Env) (remote : Remote) (fuel : Nat) (limit : Int)
    (dateRange search filter oldest latest : GoString) (showFilesOnly : Bool) (st0 : State)
    (resp : SlackMessagesResponse)
    (hp : parseDateRange dateRange = .ok (oldest, latest))
    (hr : remote.history st0.requests (historyRequest limit oldest latest []) = .ok resp) :
    ∃ r, fetchMessages env remote (fuel + 1) limit dateRange search filter showFilesOnly st0 = some r
      ∧ r.loop.accepted
          = (resp.Messages.reverse.filter (selected filter showFilesOnly)).take limit.toNat
      ∧ r.loop.totalFetched = r.loop.accepted.length
      ∧ (r.loop.accepted.length : Int) ≤ max limit 0
      ∧ (limit ≤ 0 → r.loop.accepted = [])
      ∧ (∀ m1 m2 m3 m4 m5 : SlackMessageItem, limit = 2 → resp.Messages = [m5, m4, m3, m2, m1] →
          (∀ m ∈ resp.Messages, selected filter showFilesOnly m = true) →
          r.loop.accepted = [m1, m2]) := by
  have hloop := fetchLoop_ok env remote limit dateRange oldest latest search filter showFilesOnly
    fuel ⟨[], decide (dateRange ≠ []), 0, [], [], { st0 with userCache := st0.configUserCache }⟩
    resp rfl hr
  obtain ⟨ha, ht⟩ := processMessages_accepted env remote limit search filter showFilesOnly
    resp.Messages.reverse
    ⟨[], decide (dateRange ≠ []), 0, [], [],
      State.send { st0 with userCache := st0.configUserCache } (historyRequest limit oldest latest [])⟩
  simp only [List.nil_append, Nat.sub_zero, Nat.zero_add] at ha ht
  refine ⟨_, by unfold fetchMessages; simp only [hp]; rw [hloop], ha, ?_, ?_, ?_, ?_⟩
  · simp only [ht, ha]
  · simp only [ha, List.length_take]
    omega
  · intro hle
    simp only [ha]
    have : limit.toNat = 0 := by omega
    simp [this]
  · intro m1 m2 m3 m4 m5 hl hm hall
    simp only [ha]
    rw [List.filter_eq_self.2 (fun m hmem => hall m (List.mem_reverse.1 hmem)), hm, hl]
    rfl

theorem accepted_messages_witness :
    parseDateRange "2024-01-01".toList = .ok ("1704067200".toList, "1704153599".toList)
    ∧ sampleRemote.history sampleState.requests
        (historyRequest 2 "1704067200".toList "1704153599".toList []) = .ok samplePage
    ∧ ∃ r, fetchMessages sampleEnv sampleRemote 1 2 "2024-01-01".toList [] [] false sampleState
          = some r
        ∧ r.loop.accepted
          = [sampleMessage "1704067201" "one", sampleMessage "1704067202" "two"] := by
  have h := accepted_messages sampleEnv sampleRemote 0 2 "2024-01-01".toList [] []
    "1704067200".toList "1704153599".toList false sampleState samplePage rfl rfl
  obtain ⟨r, h1, _, _, _, _, h6⟩ := h
  exact ⟨rfl, rfl, r, h1, h6 _ _ _ _ _ rfl rfl (by decide)⟩

/-! ## Continuation after a page -/

/-- C4, at the input where it fails: with the date range `2024-01-01`, limit 10
and a first page of five messages that announces more (`has_more` true, a
non-empty next cursor), the run ends with five messages accepted and its
requests are the one history request, without cursor, and the user lookup:
no second page is requested, because line 446 tests the cursor of the
request just made, which is empty, before line 447 stores the new one. -/
theorem second_page_not_requested :
    samplePage.HasMore = true ∧ samplePage.NextCursor ≠ []
    ∧ ∃ r, fetchMessages sampleEnv sampleRemote 5 10 "2024-01-01".toList [] [] false sampleState
          = some r
        ∧ r.ending = .printed
        ∧ r.loop.totalFetched = 5
        ∧ r.loop.cursor = samplePage.NextCursor
        ∧ r.loop.hasMore = false
        ∧ r.st.requests
          = [Request.history 10 (some ("1704067200".toList, "1704153599".toList)) none,
             Request.usersInfo "U1".toList] :=
  ⟨rfl, by decide, _, rfl, rfl, rfl, rfl, rfl, rfl⟩

/-! ## Name resolution -/

/-- The call of `getUserName` that goes to the remote and succeeds. -/
theorem getUserName_remote_ok (remote : Remote) (userID : GoString) (st : State)
    (userProfile : UserProfile) (hid : userID ≠ [])
    (h1 : st.userCache userID = none) (h2 : st.configUserCache userID = none)
    (hr : remote.usersInfo st.requests userID = .ok userProfile) (hok : userProfile.OK = true) :
    getUserName remote userID st
      = (userProfile.RealName,
          { userCache := st.userCache.set userID userProfile.RealName
            configUserCache := st.configUserCache.set userID userProfile.RealName
            requests := st.requests ++ [.usersInfo userID]
            saves := st.saves + 1
            out := st.out }) := by
  unfold getUserName
  simp [hid, h1, h2, hr, hok, State.send]

/-- The call of `getUserName` that finds the identifier in the session cache. -/
theorem getUserName_session_hit (remote : Remote) (userID name : GoString) (st : State)
    (hid : userID ≠ []) (h1 : st.userCache userID = some name) :
    getUserName remote userID st = (name, st) := by
  unfold getUserName
  simp [hid, h1]

/-- The call of `getUserName` whose remote lookup fails. -/
theorem getUserName_remote_failed (remote : Remote) (userID : GoString) (st : State)
    (hid : userID ≠ []) (h1 : st.userCache userID = none) (h2 : st.configUserCache userID = none)
    (hf : lookupFailed (remote.usersInfo st.requests userID) = true) :
    (getUserName remote userID st).1 = unknown
    ∧ (getUserName remote userID st).2.userCache = st.userCache
    ∧ (getUserName remote userID st).2.configUserCache = st.configUserCache
    ∧ (getUserName remote userID st).2.saves = st.saves
    ∧ (getUserName remote userID st).2.requests = st.requests ++ [.usersInfo userID] := by
  unfold getUserName
  simp only [hid, h1, h2, if_false]
  cases hr : remote.usersInfo st.requests userID with
  | doError e => exact ⟨rfl, rfl, rfl, rfl, rfl⟩
  | readError e => exact ⟨rfl, rfl, rfl, rfl, rfl⟩
  | decodeError e => exact ⟨rfl, rfl, rfl, rfl, rfl⟩
  | ok userProfile =>
    rw [hr] at hf
    have hok : userProfile.OK = false := by simpa [lookupFailed] using hf
    simp only [hok]
    exact ⟨rfl, rfl, rfl, rfl, rfl⟩

theorem UserMap.set_self (m : UserMap) (k v : GoString) : m.set k v k = some v := by
  simp [UserMap.set]

/-- C5: when a first call of `getUserName` for a non-empty identifier found it
in neither cache and resolved it by a successful remote lookup, a second call
for the same identifier on the resulting state returns the same name, leaves
the state as it is and issues no request, whatever remote it is run
against. -/
theorem resolution_idempotent (remote remote2 : Remote) (userID : GoString) (st : State)
    (userProfile : UserProfile) (hid : userID ≠ [])
    (h1 : st.userCache userID = none) (h2 : st.configUserCache userID = none)
    (hr : remote.usersInfo st.requests userID = .ok userProfile) (hok : userProfile.OK = true) :
    (getUserName remote userID st).1 = userProfile.RealName
    ∧ (getUserName remote userID st).2.requests = st.requests ++ [.usersInfo userID]
    ∧ (getUserName remote2 userID (getUserName remote userID st).2).1
        = (getUserName remote userID st).1
    ∧ (getUserName remote2 userID (getUserName remote userID st).2).2.requests
        = (getUserName remote userID st).2.requests
    ∧ (getUserName remote2 userID (getUserName remote userID st).2).2.saves
        = (getUserName remote userID st).2.saves
    ∧ (getUserName remote2 userID (getUserName remote userID st).2).2.userCache
        = (getUserName remote userID st).2.userCache
    ∧ (getUserName remote2 userID (getUserName remote userID st).2).2.configUserCache
        = (getUserName remote userID st).2.configUserCache := by
  rw [getUserName_remote_ok remote userID st userProfile hid h1 h2 hr hok]
  rw [getUserName_session_hit remote2 userID userProfile.RealName _ hid
    (UserMap.set_self _ _ _)]
  exact ⟨rfl, rfl, rfl, rfl, rfl, rfl, rfl⟩

theorem resolution_idempotent_witness :
    "U1".toList ≠ [] ∧ sampleState.userCache "U1".toList = none
    ∧ sampleState.configUserCache "U1".toList = none
    ∧ sampleRemote.usersInfo sampleState.requests "U1".toList = .ok ⟨true, "Ann".toList⟩
    ∧ (getUserName ⟨fun _ _ => .doError [], fun _ _ => .doError [], fun _ _ => .error []⟩
        "U1".toList (getUserName sampleRemote "U1".toList sampleState).2).1
        = (getUserName sampleRemote "U1".toList sampleState).1
    ∧ (getUserName ⟨fun _ _ => .doError [], fun _ _ => .doError [], fun _ _ => .error []⟩
        "U1".toList (getUserName sampleRemote "U1".toList sampleState).2).2.requests
        = (getUserName sampleRemote "U1".toList sampleState).2.requests :=
  have h := resolution_idempotent sampleRemote
    ⟨fun _ _ => .doError [], fun _ _ => .doError [], fun _ _ => .error []⟩
    "U1".toList sampleState ⟨true, "Ann".toList⟩ (by decide) rfl rfl rfl rfl
  ⟨by decide, rfl, rfl, rfl, h.2.2.1, h.2.2.2.1⟩

/-- C6: when a non-empty identifier is in neither cache and the remote lookup
fails (transport error, unreadable or undecodable body, or `ok = false`),
`getUserName` returns `"Unknown"`, leaves both caches as they were, does not
save the config, and has issued the lookup; a second call for the same
identifier, against any remote, issues the lookup again. -/
theorem failed_resolution_not_cached (remote remote2 : Remote) (userID : GoString) (st : State)
    (hid : userID ≠ []) (h1 : st.userCache userID = none) (h2 : st.configUserCache userID = none)
    (hf : lookupFailed (remote.usersInfo st.requests userID) = true) :
    (getUserName remote userID st).1 = "Unknown".toList
    ∧ (getUserName remote userID st).2.userCache = st.userCache
    ∧ (getUserName remote userID st).2.configUserCache = st.configUserCache
    ∧ (getUserName remote userID st).2.saves = st.saves
    ∧ (getUserName remote userID st).2.requests = st.requests ++ [.usersInfo userID]
    ∧ (getUserName remote2 userID (getUserName remote userID st).2).2.requests
        = st.requests ++ [.usersInfo userID, .usersInfo userID] := by
  obtain ⟨a, b, c, d, e⟩ := getUserName_remote_failed remote userID st hid h1 h2 hf
  refine ⟨a, b, c, d, e, ?_⟩
  have h1' : (getUserName remote userID st).2.userCache userID = none := by rw [b]; exact h1
  have h2' : (getUserName remote userID st).2.configUserCache userID = none := by
    rw [c]; exact h2
  generalize getUserName remote userID st = r at e h1' h2'
  unfold getUserName
  simp only [hid, h1', h2', if_false]
  cases remote2.usersInfo r.2.requests userID with
  | doError x => simp [State.send, State.print, e]
  | readError x => simp [State.send, State.print, e]
  | decodeError x => simp [State.send, State.print, e]
  | ok userProfile => cases hok : userProfile.OK <;> simp [State.send, e, hok]

theorem failed_resolution_not_cached_witness :
    "U1".toList ≠ [] ∧ sampleState.userCache "U1".toList = none
    ∧ sampleState.configUserCache "U1".toList = none
    ∧ lookupFailed ((⟨fun _ _ => .ok ⟨false, "Ann".toList⟩, fun _ _ => .doError [],
        fun _ _ => .error []⟩ : Remote).usersInfo sampleState.requests "U1".toList) = true
    ∧ (getUserName ⟨fun _ _ => .ok ⟨false, "Ann".toList⟩, fun _ _ => .doError [],
        fun _ _ => .error []⟩ "U1".toList sampleState).1 = "Unknown".toList
    ∧ (getUserName sampleRemote "U1".toList
        (getUserName ⟨fun _ _ => .ok ⟨false, "Ann".toList⟩, fun _ _ => .doError [],
          fun _ _ => .error []⟩ "U1".toList sampleState).2).2.requests
        = sampleState.requests ++ [.usersInfo "U1".toList, .usersInfo "U1".toList] :=
  have h := failed_resolution_not_cached
    ⟨fun _ _ => .ok ⟨false, "Ann".toList⟩, fun _ _ => .doError [], fun _ _ => .error []⟩
    sampleRemote "U1".toList sampleState (by decide) rfl rfl rfl
  ⟨by decide, rfl, rfl, rfl, h.1, h.2.2.2.2.2⟩

/-- One call of `getUserName` keeps the two caches equal. -/
theorem getUserName_agree (remote : Remote) (userID : GoString) (st : State)
    (h : st.userCache = st.configUserCache) :
    (getUserName remote userID st).2.userCache
      = (getUserName remote userID st).2.configUserCache := by
  unfold getUserName
  split_ifs with hid
  · exact h
  · cases h1 : st.userCache userID with
    | some name => exact h
    | none =>
      have h2 : st.configUserCache userID = none := by rw [← h]; exact h1
      simp only [h2]
      cases remote.usersInfo st.requests userID with
      | doError e => exact h
      | readError e => exact h
      | decodeError e => exact h
      | ok userProfile =>
        cases hok : userProfile.OK
        · simp [hok, State.send, h]
        · simp [hok, State.send, h]

/-- A call of `getUserName` that resolves a non-empty identifier from a state
with equal caches leaves it mapped to the returned name in both. -/
theorem getUserName_maps (remote : Remote) (userID : GoString) (st : State)
    (h : st.userCache = st.configUserCache) (hid : userID ≠ [])
    (hres : resolves remote userID st = true) :
    (getUserName remote userID st).2.userCache userID = some (getUserName remote userID st).1
    ∧ (getUserName remote userID st).2.configUserCache userID
        = some (getUserName remote userID st).1 := by
  cases h1 : st.userCache userID with
  | some name =>
    rw [getUserName_session_hit remote userID name st hid h1]
    exact ⟨h1, by rw [← h]; exact h1⟩
  | none =>
    have h2 : st.configUserCache userID = none := by rw [← h]; exact h1
    simp only [resolves, h1, h2, Option.isSome_none, Bool.false_or, Bool.not_eq_true'] at hres
    cases hr : remote.usersInfo st.requests userID with
    | doError e => simp [hr, lookupFailed] at hres
    | readError e => simp [hr, lookupFailed] at hres
    | decodeError e => simp [hr, lookupFailed] at hres
    | ok userProfile =>
      have hok : userProfile.OK = true := by simpa [hr, lookupFailed] using hres
      rw [getUserName_remote_ok remote userID st userProfile hid h1 h2 hr hok]
      exact ⟨UserMap.set_self _ _ _, UserMap.set_self _ _ _⟩

theorem resolveAll_agree (remote : Remote) (ids : List GoString) (st : State)
    (h : st.userCache = st.configUserCache) :
    (resolveAll remote ids st).2.userCache = (resolveAll remote ids st).2.configUserCache := by
  induction ids generalizing st with
  | nil => exact h
  | cons userID rest ih =>
    unfold resolveAll
    exact ih _ (getUserName_agree remote userID st h)

/-- C7: from a session cache that is the copy of the persisted cache made by
`fetchMessages`, after any sequence of `getUserName` calls, with any
identifiers against any remote, the session cache and the persisted cache are
equal; and a further call that resolves a non-empty identifier (from a cache
or by a successful lookup) leaves it mapped to the returned name in both. -/
theorem caches_agree (remote : Remote) (st0 : State) (ids : List GoString) :
    (resolveAll remote ids { st0 with userCache := st0.configUserCache }).2.userCache
      = (resolveAll remote ids { st0 with userCache := st0.configUserCache }).2.configUserCache
    ∧ ∀ userID : GoString, userID ≠ [] →
        resolves remote userID
          (resolveAll remote ids { st0 with userCache := st0.configUserCache }).2 = true →
        (getUserName remote userID
            (resolveAll remote ids { st0 with userCache := st0.configUserCache }).2).2.userCache
          userID
          = some (getUserName remote userID
              (resolveAll remote ids { st0 with userCache := st0.configUserCache }).2).1
        ∧ (getUserName remote userID
            (resolveAll remote ids
              { st0 with userCache := st0.configUserCache }).2).2.configUserCache userID
          = some (getUserName remote userID
              (resolveAll remote ids { st0 with userCache := st0.configUserCache }).2).1 := by
  have hag := resolveAll_agree remote ids { st0 with userCache := st0.configUserCache } rfl
  exact ⟨hag, fun userID hid hres => getUserName_maps remote userID _ hag hid hres⟩

theorem caches_agree_witness :
    "U2".toList ≠ []
    ∧ resolves sampleRemote "U2".toList
        (resolveAll sampleRemote ["U1".toList, [], "U1".toList]
          { sampleState with userCache := sampleState.configUserCache }).2 = true
    ∧ (getUserName sampleRemote "U2".toList
        (resolveAll sampleRemote ["U1".toList, [], "U1".toList]
          { sampleState with userCache := sampleState.configUserCache }).2).2.configUserCache
        "U2".toList = some "Ann".toList :=
  ⟨by decide, rfl,
    ((caches_agree sampleRemote sampleState ["U1".toList, [], "U1".toList]).2 "U2".toList
      (by decide) rfl).2⟩

/-! ## Reactions -/

theorem getReactionsLoop_eq (emojiList : GoString → Option GoString)
    (reactions : List SlackReaction) (acc : GoString) :
    getReactionsLoop emojiList reactions acc
      = acc ++ reactions.flatMap (reactionPiece emojiList) := by
  induction reactions generalizing acc with
  | nil => simp [getReactionsLoop]
  | cons r rest ih => simp [getReactionsLoop, ih, List.flatMap_cons]

theorem getReactionsString_eq (emojiList : GoString → Option GoString)
    (reactions : List SlackReaction) :
    getReactionsString emojiList reactions = reactions.flatMap (reactionPiece emojiList) := by
  simp [getReactionsString, getReactionsLoop_eq]

/-- C8: for every emoji table, `getReactionsString` returns the empty string
for no reactions, distributes over concatenation of reaction lists, and is the
concatenation in the given order of one piece per reaction, a space, the glyph,
a colon and the decimal count, the glyph being what `unicodeToEmoji` returns
for the table entry of the name (for the name itself when it has no entry);
a reaction whose table entry decodes to `glyph` contributes
`" " ++ glyph ++ ":" ++ count`, and for the reaction `x` with count 2 and the
table entry `&#x2705;` the result is a space, U+2705 and `:2`. -/
theorem reactions_string (emojiList : GoString → Option GoString) :
    getReactionsString emojiList [] = []
    ∧ (∀ a b : List SlackReaction,
        getReactionsString emojiList (a ++ b)
          = getReactionsString emojiList a ++ getReactionsString emojiList b)
    ∧ (∀ reactions : List SlackReaction,
        getReactionsString emojiList reactions
          = reactions.flatMap (fun reaction =>
              " ".toList
                ++ ((unicodeToEmoji ((emojiList reaction.Name).getD reaction.Name)).getD [])
                ++ ":".toList ++ formatInt reaction.Count))
    ∧ (∀ (reaction : SlackReaction) (code glyph : GoString),
        emojiList reaction.Name = some code → unicodeToEmoji code = some glyph →
        getReactionsString emojiList [reaction]
          = " ".toList ++ glyph ++ ":".toList ++ formatInt reaction.Count)
    ∧ getReactionsString (fun name => if name = "x".toList then some "&#x2705;".toList else none)
        [⟨"x".toList, 2, []⟩] = [' ', Char.ofNat 0x2705, ':', '2'] := by
  have hpiece : ∀ reaction : SlackReaction, reactionPiece emojiList reaction
      = " ".toList
        ++ ((unicodeToEmoji ((emojiList reaction.Name).getD reaction.Name)).getD [])
        ++ ":".toList ++ formatInt reaction.Count := by
    intro reaction
    unfold reactionPiece
    cases h1 : emojiList reaction.Name <;> simp only [Option.getD] <;>
      cases h2 : unicodeToEmoji _ <;> rfl
  refine ⟨rfl, ?_, ?_, ?_, by decide⟩
  · intro a b
    simp only [getReactionsString_eq, List.flatMap_append]
  · intro reactions
    rw [getReactionsString_eq]
    congr 1
    funext reaction
    exact hpiece reaction
  · intro reaction code glyph h1 h2
    rw [getReactionsString_eq]
    simp only [List.flatMap_cons, List.flatMap_nil, List.append_nil, hpiece, h1, Option.getD,
      h2]

theorem reactions_string_witness :
    sampleEnv.emojiList "x".toList = some "&#x2705;".toList
    ∧ unicodeToEmoji "&#x2705;".toList = some [Char.ofNat 0x2705]
    ∧ getReactionsString sampleEnv.emojiList [⟨"x".toList, 7, ["U1".toList]⟩]
        = " ".toList ++ [Char.ofNat 0x2705] ++ ":".toList ++ formatInt 7 :=
  ⟨rfl, by decide,
    (reactions_string sampleEnv.emojiList).2.2.2.1 ⟨"x".toList, 7, ["U1".toList]⟩
      "&#x2705;".toList [Char.ofNat 0x2705] rfl (by decide)⟩

/-- C9, at the input where it fails: the reaction `thumbsup` has no entry in
the table, so its glyph source is its name, which is no hexadecimal code-point
reference; `getReactionsString` renders `" :1"` for it, with an empty glyph and
not the raw string `thumbsup`, because it drops the error of `unicodeToEmoji`
and keeps the empty string returned with it.  The reaction that follows is
still rendered. -/
theorem undecodable_reaction_rendered_empty :
    sampleEnv.emojiList "thumbsup".toList = none
    ∧ unicodeToEmoji "thumbsup".toList = none
    ∧ getReactionsString sampleEnv.emojiList [⟨"thumbsup".toList, 1, []⟩] = " :1".toList
    ∧ getReactionsString sampleEnv.emojiList [⟨"thumbsup".toList, 1, []⟩] ≠ " thumbsup:1".toList
    ∧ getReactionsString sampleEnv.emojiList [⟨"thumbsup".toList, 1, []⟩, ⟨"x".toList, 2, []⟩]
        = " :1".toList ++ [' ', Char.ofNat 0x2705, ':', '2'] := by
  decide

/-! ## Highlighting -/

theorem hasPrefix_iff (s p : GoString) : hasPrefix s p = true ↔ p <+: s := by
  induction p generalizing s with
  | nil => simp [hasPrefix]
  | cons x xs ih =>
    cases s with
    | nil => simp [hasPrefix]
    | cons c cs =>
      simp only [hasPrefix, Bool.and_eq_true, beq_iff_eq, ih, List.cons_prefix_cons]
      constructor
      · rintro ⟨rfl, h⟩
        exact ⟨rfl, h⟩
      · rintro ⟨rfl, h⟩
        exact ⟨rfl, h⟩

theorem replaceScan_skip (old new : GoString) (k : Nat) (s : GoString) :
    replaceScan old new k s = replaceScan old new 0 (s.drop k) := by
  induction k generalizing s with
  | zero => simp
  | succ k ih =>
    cases s with
    | nil => simp [replaceScan]
    | cons c cs => simp [replaceScan, ih cs]

/-- The scan replaces the occurrences of a non-empty `old` found left to right. -/
theorem replaceScan_wrapped (old new : GoString) (hne : old ≠ []) (s : GoString) :
    Wrapped old new s (replaceScan old new 0 s) := by
  generalize hlen : s.length = n
  induction n using Nat.strong_induction_on generalizing s with
  | _ n ih =>
    cases s with
    | nil =>
      simp only [replaceScan]
      exact Wrapped.done
    | cons c cs =>
      rw [replaceScan]
      split_ifs with hp
      · obtain ⟨rest, hrest⟩ := (hasPrefix_iff _ _).1 hp
        obtain ⟨x, xs, rfl⟩ := List.exists_cons_of_ne_nil hne
        simp only [List.cons_append, List.cons.injEq] at hrest
        obtain ⟨rfl, hcs⟩ := hrest
        rw [replaceScan_skip, ← hcs]
        simp only [List.length_cons, Nat.add_sub_cancel, List.drop_left]
        have hw := ih rest.length (by rw [← hlen, ← hcs]; simp; omega) rest rfl
        exact Wrapped.hit rest _ hw
      · have hnp : ¬ old <+: (c :: cs) := fun h => hp ((hasPrefix_iff _ _).2 h)
        exact Wrapped.miss c cs _ hnp (ih cs.length (by rw [← hlen]; simp) cs rfl)

theorem replaceAll_wrapped (line term hl : GoString) (hne : term ≠ []) :
    Wrapped term hl line (replaceAll line term hl) := by
  obtain ⟨x, xs, rfl⟩ := List.exists_cons_of_ne_nil hne
  exact replaceScan_wrapped (x :: xs) hl hne line

theorem renderTextLines_tail (env : Env) (search filter : GoString) (msg : SlackMessageItem)
    (userName edited reactions : GoString) (i : Nat) (lines : List GoString) :
    renderTextLines env search filter msg userName edited reactions (i + 1) lines
      = lines.map (fun line =>
          indent ++ defaultColorStart ++ highlightLine search filter msg.Text line
            ++ "\n".toList) := by
  induction lines generalizing i with
  | nil => rfl
  | cons line rest ih => simp [renderTextLines, ih]

theorem renderTextLines_eq (env : Env) (search filter : GoString) (msg : SlackMessageItem)
    (userName edited reactions : GoString) :
    renderTextLines env search filter msg userName edited reactions 0 (split '\n' msg.Text)
      = textLinesWith env (highlightLine search filter msg.Text) msg userName edited
          reactions := by
  unfold textLinesWith
  cases split '\n' msg.Text with
  | nil => rfl
  | cons first rest => simp [renderTextLines, renderTextLines_tail]

theorem renderReplies_prefix (env : Env) (remote : Remote) (search : GoString)
    (replies : List SlackMessageReply) (messages : List GoString) (st : State) :
    ∃ tail, (renderReplies env remote search replies messages st).1 = messages ++ tail := by
  induction replies generalizing messages st with
  | nil => exact ⟨[], by simp [renderReplies]⟩
  | cons reply rest ih =>
    unfold renderReplies
    obtain ⟨tail, ht⟩ := ih
      (messages ++ renderReplyLines env search reply (getUserName remote reply.UserID st).1
          (if reply.EditedUser ≠ [] then " (edited)".toList else [])
          (getReactionsString env.emojiList reply.Reactions) 0 (split '\n' reply.Text)
        ++ reply.Files.map (renderFile "    ".toList search))
      (getUserName remote reply.UserID st).2
    exact ⟨_, by rw [ht, List.append_assoc, List.append_assoc]⟩

theorem acceptMessage_messages (env : Env) (remote : Remote) (search filter : GoString)
    (msg : SlackMessageItem) (l : Loop) :
    ∃ tail, (acceptMessage env remote search filter msg l).messages
      = l.messages
        ++ renderTextLines env search filter msg (getUserName remote msg.UserID l.st).1
            (if msg.EditedUser ≠ [] then " (edited)".toList else [])
            (getReactionsString env.emojiList msg.Reactions) 0 (split '\n' msg.Text)
        ++ tail := by
  unfold acceptMessage
  simp only
  by_cases ht : msg.ThreadTS ≠ []
  · rw [if_pos ht]
    split
    · rename_i replies _
      obtain ⟨tail, h⟩ := renderReplies_prefix env remote search replies
        (l.messages
          ++ renderTextLines env search filter msg (getUserName remote msg.UserID l.st).1
              (if msg.EditedUser ≠ [] then " (edited)".toList else [])
              (getReactionsString env.emojiList msg.Reactions) 0 (split '\n' msg.Text)
          ++ msg.Files.map (renderFile "  ".toList search))
        (getThreadReplies remote msg.ThreadTS filter search
          (getUserName remote msg.UserID l.st).2).2
      exact ⟨_, by rw [h, List.append_assoc]⟩
    · exact ⟨_, rfl⟩
  · rw [if_neg ht]
    exact ⟨_, rfl⟩

/-- C10: the text lines of an accepted message are appended to the buffer of
`fetchMessages` right after what it held.  With a non-empty search term they
are the header line and the continuation lines in which each text line has
every occurrence of the search term, found left to right without overlap,
replaced by highlight-start, term, reset, default colour, and nothing else
changed, whatever the filter.  With an empty search term and a non-empty
filter, for a message that passed the selection, the occurrences of the filter
term are replaced in the same way instead. -/
theorem highlight_search_priority (env : Env) (remote : Remote) (search filter : GoString)
    (showFilesOnly : Bool) (msg : SlackMessageItem) (userName edited reactions : GoString) :
    (∀ l : Loop, ∃ tail, (acceptMessage env remote search filter msg l).messages
        = l.messages
          ++ renderTextLines env search filter msg (getUserName remote msg.UserID l.st).1
              (if msg.EditedUser ≠ [] then " (edited)".toList else [])
              (getReactionsString env.emojiList msg.Reactions) 0 (split '\n' msg.Text)
          ++ tail)
    ∧ (search ≠ [] →
        renderTextLines env search filter msg userName edited reactions 0 (split '\n' msg.Text)
          = textLinesWith env (fun line => replaceAll line search (wrapTerm search)) msg
              userName edited reactions
        ∧ ∀ line : GoString, Wrapped search (redColorStart ++ search ++ resetColor ++ defaultColorStart)
            line (replaceAll line search (wrapTerm search)))
    ∧ (search = [] → filter ≠ [] → selected filter showFilesOnly msg = true →
        renderTextLines env search filter msg userName edited reactions 0 (split '\n' msg.Text)
          = textLinesWith env (fun line => replaceAll line filter (wrapTerm filter)) msg
              userName edited reactions
        ∧ ∀ line : GoString, Wrapped filter (redColorStart ++ filter ++ resetColor ++ defaultColorStart)
            line (replaceAll line filter (wrapTerm filter))) := by
  refine ⟨acceptMessage_messages env remote search filter msg, ?_, ?_⟩
  · intro hs
    refine ⟨?_, fun line => replaceAll_wrapped line search _ hs⟩
    rw [renderTextLines_eq]
    congr 1
    funext line
    simp [highlightLine, hs]
  · intro hs hf hsel
    refine ⟨?_, fun line => replaceAll_wrapped line filter _ hf⟩
    rw [renderTextLines_eq]
    congr 1
    funext line
    have hc : contains msg.Text filter = true := by
      rcases ((selected_iff filter showFilesOnly msg).1 hsel).1 with h | h
      · exact absurd h hf
      · exact h
    simp [highlightLine, hs, hc]

theorem highlight_search_priority_witness :
    "foo".toList ≠ []
    ∧ renderTextLines sampleEnv "foo".toList "bar".toList
        (sampleMessage "1704067201" "foo bar foo\nbar foo") "Ann".toList [] [] 0
        (split '\n' (sampleMessage "1704067201" "foo bar foo\nbar foo").Text)
      = ["1704067201 (1704067201) Ann: \x1b[39m\x1b[91mfoo\x1b[0m\x1b[39m bar \x1b[91mfoo\x1b[0m\x1b[39m\n".toList,
         indent ++ "\x1b[39mbar \x1b[91mfoo\x1b[0m\x1b[39m\n".toList]
    ∧ ("bar".toList ≠ [] ∧ selected "bar".toList false
          (sampleMessage "1704067201" "foo bar foo\nbar foo") = true)
    ∧ renderTextLines sampleEnv [] "bar".toList
        (sampleMessage "1704067201" "foo bar foo\nbar foo") "Ann".toList [] [] 0
        (split '\n' (sampleMessage "1704067201" "foo bar foo\nbar foo").Text)
      = ["1704067201 (1704067201) Ann: \x1b[39mfoo \x1b[91mbar\x1b[0m\x1b[39m foo\n".toList,
         indent ++ "\x1b[39m\x1b[91mbar\x1b[0m\x1b[39m foo\n".toList] :=
  have h := highlight_search_priority sampleEnv sampleRemote "foo".toList "bar".toList false
    (sampleMessage "1704067201" "foo bar foo\nbar foo") "Ann".toList [] []
  have h2 := highlight_search_priority sampleEnv sampleRemote [] "bar".toList false
    (sampleMessage "1704067201" "foo bar foo\nbar foo") "Ann".toList [] []
  ⟨by decide, (h.2.1 (by decide)).1, ⟨by decide, by decide⟩,
    (h2.2.2 rfl (by decide) (by decide)).1⟩

/-! ## Thread replies -/

theorem keptReply_iff (threadTs filter : GoString) (msg : SlackMessageItem) :
    keptReply threadTs filter msg = true
      ↔ msg.Ts ≠ threadTs ∧ (filter = [] ∨ contains msg.Text filter = true) := by
  simp [keptReply]

/-- The loop of `getThreadReplies` appends one reply for each kept message,
named by the successive calls of `getUserName`, and no other. -/
theorem collectReplies_spec (remote : Remote) (threadTs filter : GoString)
    (msgs : List SlackMessageItem) (acc : List SlackMessageReply) (st : State) :
    (collectReplies remote threadTs filter msgs acc st).1.map SlackMessageReply.carried
        = acc.map SlackMessageReply.carried
          ++ (msgs.filter (keptReply threadTs filter)).map SlackMessageItem.carried
    ∧ (collectReplies remote threadTs filter msgs acc st).1.map (fun r => r.UserName)
        = acc.map (fun r => r.UserName)
          ++ (resolveAll remote
                ((msgs.filter (keptReply threadTs filter)).map (fun m => m.UserID)) st).1
    ∧ (collectReplies remote threadTs filter msgs acc st).1.map (fun r => r.EditedUser)
        = acc.map (fun r => r.EditedUser)
          ++ (msgs.filter (keptReply threadTs filter)).map (fun _ => [])
    ∧ (collectReplies remote threadTs filter msgs acc st).2
        = (resolveAll remote
            ((msgs.filter (keptReply threadTs filter)).map (fun m => m.UserID)) st).2 := by
  induction msgs generalizing acc st with
  | nil => simp [collectReplies, resolveAll]
  | cons msg rest ih =>
    unfold collectReplies
    split_ifs with hts hf
    · have hk : keptReply threadTs filter msg = true := (keptReply_iff _ _ _).2 ⟨hts, hf⟩
      rw [List.filter_cons_of_pos hk]
      obtain ⟨i1, i2, i3, i4⟩ := ih
        (acc ++ [{ UserID := msg.UserID, UserName := (getUserName remote msg.UserID st).1,
                   Text := msg.Text, Ts := msg.Ts, Reactions := msg.Reactions,
                   Files := msg.Files, EditedUser := [] }])
        (getUserName remote msg.UserID st).2
      rw [i1, i2, i3, i4]
      simp [resolveAll, SlackMessageReply.carried, SlackMessageItem.carried]
    · have hk : ¬ keptReply threadTs filter msg = true := by
        rw [keptReply_iff]
        exact fun h => hf h.2
      rw [List.filter_cons_of_neg hk]
      exact ih acc st
    · have hk : ¬ keptReply threadTs filter msg = true := by
        rw [keptReply_iff]
        exact fun h => hts h.1
      rw [List.filter_cons_of_neg hk]
      exact ih acc st

/-- C11: for a thread response that was received, `getThreadReplies` returns
without error, in response order, exactly one reply for each message whose
`ts` differs from the thread identifier and whose text passes the filter; the
replies carry the user id, text, `ts`, reactions and files of those messages,
their author names are the names the successive calls of `getUserName` return
for the user ids, and no reply has the `ts` of the parent. -/
theorem thread_replies (remote : Remote) (threadTs filter search : GoString) (st : State)
    (messages : List SlackMessageItem)
    (hresp : remote.replies st.requests threadTs = .ok messages) :
    ∃ replies, (getThreadReplies remote threadTs filter search st).1 = .ok replies
      ∧ replies.map SlackMessageReply.carried
          = (messages.filter (fun msg => decide (msg.Ts ≠ threadTs)
              && (decide (filter = []) || contains msg.Text filter))).map
              SlackMessageItem.carried
      ∧ replies.map (fun r => r.UserName)
          = (resolveAll remote
              ((messages.filter (keptReply threadTs filter)).map (fun m => m.UserID))
              (st.send (.replies threadTs))).1
      ∧ (getThreadReplies remote threadTs filter search st).2
          = (resolveAll remote
              ((messages.filter (keptReply threadTs filter)).map (fun m => m.UserID))
              (st.send (.replies threadTs))).2
      ∧ ∀ r ∈ replies, r.Ts ≠ threadTs := by
  obtain ⟨h1, h2, _, h4⟩ := collectReplies_spec remote threadTs filter messages []
    (st.send (.replies threadTs))
  simp only [List.map_nil, List.nil_append] at h1 h2
  refine ⟨(collectReplies remote threadTs filter messages [] (st.send (.replies threadTs))).1,
    by unfold getThreadReplies; simp only [hresp], h1, h2,
    by unfold getThreadReplies; simp only [hresp]; exact h4, ?_⟩
  intro r hr
  have hmem : r.carried ∈ (messages.filter (keptReply threadTs filter)).map
      SlackMessageItem.carried := by
    rw [← h1]
    exact List.mem_map_of_mem _ hr
  obtain ⟨m, hm, hcar⟩ := List.mem_map.1 hmem
  have hk := (keptReply_iff _ _ _).1 (List.mem_filter.1 hm).2
  have hts : m.Ts = r.Ts := by
    have := congrArg (fun t => t.2.2.1) hcar
    simpa [SlackMessageReply.carried, SlackMessageItem.carried] using this
  rw [← hts]
  exact hk.1

theorem thread_replies_witness :
    sampleThreadRemote.replies sampleState.requests "1704067300".toList
      = .ok [sampleParent, sampleReplyMessage]
    ∧ ∃ replies, (getThreadReplies sampleThreadRemote "1704067300".toList [] [] sampleState).1
          = .ok replies
        ∧ replies.map SlackMessageReply.carried = [sampleReplyMessage.carried]
        ∧ replies.map (fun r => r.UserName) = ["Ann".toList] := by
  obtain ⟨replies, h1, h2, h3, _, _⟩ := thread_replies sampleThreadRemote "1704067300".toList
    [] [] sampleState [sampleParent, sampleReplyMessage] rfl
  exact ⟨rfl, replies, h1, h2, h3⟩

/-! ## Replies whose author is not resolved -/

theorem resolveAll_length (remote : Remote) (ids : List GoString) (st : State) :
    (resolveAll remote ids st).1.length = ids.length := by
  induction ids generalizing st with
  | nil => rfl
  | cons userID rest ih => simp [resolveAll, ih]

/-- The first line rendered for a reply is its header line. -/
theorem renderReplyLines_head (env : Env) (search : GoString) (reply : SlackMessageReply)
    (name edited : GoString) :
    ∃ rest, renderReplyLines env search reply name edited
        (getReactionsString env.emojiList reply.Reactions) 0 (split '\n' reply.Text)
      = replyHeader env search reply name edited :: rest := by
  unfold replyHeader
  cases hs : split '\n' reply.Text with
  | nil => exact absurd hs (split_ne_nil _ _)
  | cons first rest =>
    refine ⟨renderReplyLines env search reply name edited
      (getReactionsString env.emojiList reply.Reactions) (0 + 1) rest, ?_⟩
    rw [renderReplyLines]
    simp only [if_true, List.headD_cons]

/-- The loop over the replies renders the header line of every reply, under
the name that the call of `getUserName` made for it in the loop returns. -/
theorem renderReplies_headers (env : Env) (remote : Remote) (search : GoString)
    (replies : List SlackMessageReply) (messages : List GoString) (st : State) :
    ∀ p ∈ List.zip replies (resolveAll remote (replies.map (fun r => r.UserID)) st).1,
      replyHeader env search p.1 p.2
          (if p.1.EditedUser ≠ [] then " (edited)".toList else [])
        ∈ (renderReplies env remote search replies messages st).1 := by
  induction replies generalizing messages st with
  | nil => simp [resolveAll]
  | cons first rest ih =>
    intro p hp
    simp only [List.map_cons, resolveAll, List.zip_cons_cons, List.mem_cons] at hp
    unfold renderReplies
    simp only
    rcases hp with rfl | hrest
    · obtain ⟨tail, ht⟩ := renderReplies_prefix env remote search rest
        (messages ++ renderReplyLines env search first (getUserName remote first.UserID st).1
            (if first.EditedUser ≠ [] then " (edited)".toList else [])
            (getReactionsString env.emojiList first.Reactions) 0 (split '\n' first.Text)
          ++ first.Files.map (renderFile "    ".toList search))
        (getUserName remote first.UserID st).2
      obtain ⟨more, hm⟩ := renderReplyLines_head env search first
        (getUserName remote first.UserID st).1
        (if first.EditedUser ≠ [] then " (edited)".toList else [])
      rw [ht, hm]
      simp
    · exact ih _ _ p hrest

/-- C12, amended: a reply whose author's name cannot be resolved is not
omitted.  For a thread response that was received, `getThreadReplies` returns
one reply for every message that differs from the parent and passes the
filter, whatever `getUserName` yields, and the author name of each reply is
the name `getUserName` yields at that call, `"Unknown"` included.
`fetchMessages` then renders into its buffer the header line of every returned
reply, under the name `getUserName` yields when it is called again for the
reply at line 411: `"Unknown"` when that resolution fails too, the resolved
name otherwise. -/
theorem unresolved_replies_kept (env : Env) (remote : Remote) (search filter : GoString)
    (msg : SlackMessageItem) (l : Loop) (messages : List SlackMessageItem)
    (hthread : msg.ThreadTS ≠ [])
    (hresp : remote.replies (getUserName remote msg.UserID l.st).2.requests msg.ThreadTS
      = .ok messages) :
    ∃ replies,
      (getThreadReplies remote msg.ThreadTS filter search
          (getUserName remote msg.UserID l.st).2).1 = .ok replies
      ∧ replies.map SlackMessageReply.carried
          = (messages.filter (keptReply msg.ThreadTS filter)).map SlackMessageItem.carried
      ∧ replies.map (fun r => r.UserName)
          = (resolveAll remote
              ((messages.filter (keptReply msg.ThreadTS filter)).map (fun m => m.UserID))
              ((getUserName remote msg.UserID l.st).2.send (.replies msg.ThreadTS))).1
      ∧ (resolveAll remote (replies.map (fun r => r.UserID))
            (getThreadReplies remote msg.ThreadTS filter search
              (getUserName remote msg.UserID l.st).2).2).1.length = replies.length
      ∧ ∀ p ∈ List.zip replies
            (resolveAll remote (replies.map (fun r => r.UserID))
              (getThreadReplies remote msg.ThreadTS filter search
                (getUserName remote msg.UserID l.st).2).2).1,
          replyHeader env search p.1 p.2
              (if p.1.EditedUser ≠ [] then " (edited)".toList else [])
            ∈ (acceptMessage env remote search filter msg l).messages := by
  obtain ⟨h1, h2, _, _⟩ := collectReplies_spec remote msg.ThreadTS filter messages []
    ((getUserName remote msg.UserID l.st).2.send (.replies msg.ThreadTS))
  simp only [List.map_nil, List.nil_append] at h1 h2
  have hret : (getThreadReplies remote msg.ThreadTS filter search
      (getUserName remote msg.UserID l.st).2).1
      = .ok (collectReplies remote msg.ThreadTS filter messages []
          ((getUserName remote msg.UserID l.st).2.send (.replies msg.ThreadTS))).1 := by
    unfold getThreadReplies
    simp only [hresp]
  refine ⟨_, hret, h1, h2, by rw [resolveAll_length, List.length_map], ?_⟩
  intro p hp
  have hrender := renderReplies_headers env remote search
    (collectReplies remote msg.ThreadTS filter messages []
      ((getUserName remote msg.UserID l.st).2.send (.replies msg.ThreadTS))).1
    (l.messages
      ++ renderTextLines env search filter msg (getUserName remote msg.UserID l.st).1
          (if msg.EditedUser ≠ [] then " (edited)".toList else [])
          (getReactionsString env.emojiList msg.Reactions) 0 (split '\n' msg.Text)
      ++ msg.Files.map (renderFile "  ".toList search))
    (getThreadReplies remote msg.ThreadTS filter search
      (getUserName remote msg.UserID l.st).2).2 p hp
  unfold acceptMessage
  simp only [if_pos hthread, hret]
  exact hrender

theorem unresolved_replies_kept_witness :
    sampleParent.ThreadTS ≠ []
    ∧ sampleFlakyRemote.replies
        (getUserName sampleFlakyRemote sampleParent.UserID sampleState).2.requests
        sampleParent.ThreadTS = .ok [sampleParent, sampleReplyMessage]
    ∧ ∃ replies,
        (getThreadReplies sampleFlakyRemote sampleParent.ThreadTS [] []
            (getUserName sampleFlakyRemote sampleParent.UserID sampleState).2).1 = .ok replies
        ∧ replies.map (fun r => r.UserName) = ["Unknown".toList]
        ∧ ∀ p ∈ List.zip replies
              (resolveAll sampleFlakyRemote (replies.map (fun r => r.UserID))
                (getThreadReplies sampleFlakyRemote sampleParent.ThreadTS [] []
                  (getUserName sampleFlakyRemote sampleParent.UserID sampleState).2).2).1,
            replyHeader sampleEnv [] p.1 p.2
                (if p.1.EditedUser ≠ [] then " (edited)".toList else [])
              ∈ (acceptMessage sampleEnv sampleFlakyRemote [] [] sampleParent
                  ⟨[], false, 0, [], [], sampleState⟩).messages := by
  obtain ⟨replies, h1, _, h3, _, h5⟩ := unresolved_replies_kept sampleEnv sampleFlakyRemote [] []
    sampleParent ⟨[], false, 0, [], [], sampleState⟩ [sampleParent, sampleReplyMessage]
    (by decide) rfl
  exact ⟨by decide, rfl, replies, h1, h3, h5⟩

/-- The run that the amended C12 describes for a lookup that fails and then
succeeds: `getThreadReplies` returns the reply of `U9` under the name
`"Unknown"`, and `fetchMessages`, which asks again, prints it under `Ann`. -/
theorem reply_rendered_under_second_resolution :
    (getThreadReplies sampleFlakyRemote "1704067300".toList [] []
        (getUserName sampleFlakyRemote "U1".toList sampleState).2).1
      = .ok [⟨"U9".toList, "Unknown".toList, "looks good".toList, "1704067301".toList, [], [],
          []⟩]
    ∧ ∃ r, fetchMessages sampleEnv sampleFlakyRemote 1 5 [] "zz".toList [] false sampleState
          = some r
        ∧ r.st.out
          = ["1704067300 (1704067300) Unknown: \x1b[39mrelease notes (edited)\n".toList,
             "  ↳ 1704067301 (1704067301) Ann: \x1b[39mlooks good\n".toList] :=
  ⟨rfl, _, rfl, rfl⟩

/-- C12 as stated fails: against a server whose user lookups all fail, the
Name Resolver yields `"Unknown"` for the author `U9` of the reply in the
thread, and yet `getThreadReplies` returns that reply, under the name
`"Unknown"`, and the run of `fetchMessages` prints its header line. -/
theorem unresolved_reply_not_omitted :
    (getUserName sampleSilentRemote "U9".toList sampleState).1 = "Unknown".toList
    ∧ (getThreadReplies sampleSilentRemote "1704067300".toList [] [] sampleState).1
        = .ok [⟨"U9".toList, "Unknown".toList, "looks good".toList, "1704067301".toList, [], [],
            []⟩]
    ∧ ∃ r, fetchMessages sampleEnv sampleSilentRemote 1 5 [] "zz".toList [] false sampleState
          = some r
        ∧ r.st.out
          = ["1704067300 (1704067300) Unknown: \x1b[39mrelease notes (edited)\n".toList,
             "  ↳ 1704067301 (1704067301) Unknown: \x1b[39mlooks good\n".toList] :=
  ⟨rfl, rfl, _, rfl, rfl⟩

/-! ## Action commands and the status of the response -/

/-- The two reaction commands pass a non-OK payload on as an error. -/
theorem reaction_commands_report_api_error (config : Config) (post : PostRequest → Posted)
    (ts emoji err : GoString) (hts : ts ≠ [])
    (hpost : ∀ req, post req = .response (.ok ⟨false, err⟩)) :
    (addReaction config post ts emoji).err = some ("Error response from API: ".toList ++ err)
    ∧ (addReaction config post ts emoji).out = []
    ∧ (removeReaction config post ts emoji).err
        = some ("Error response from API: ".toList ++ err)
    ∧ (removeReaction config post ts emoji).out = [] := by
  unfold addReaction removeReaction
  simp [hts, hpost, handleError]

/-- C13, at the input where it fails: the server answers every POST with the
payload `ok = false`, `error = channel_not_found`.  `sendMessage`,
`updateMessage` and `deleteMessage` never read the payload: each returns no
error and prints its success line.  `addReaction` and `removeReaction`, which
call `handleError`, return the error built from the error string. -/
theorem message_commands_ignore_api_error :
    (sendMessage sampleConfig sampleRefusal "hello".toList []).err = none
    ∧ (sendMessage sampleConfig sampleRefusal "hello".toList []).out
        = ["Message sent successfully\n".toList]
    ∧ (updateMessage sampleConfig sampleRefusal "1704067300.000100".toList "hello".toList).err
        = none
    ∧ (updateMessage sampleConfig sampleRefusal "1704067300.000100".toList "hello".toList).out
        = ["Message updated successfully\n".toList]
    ∧ (deleteMessage sampleConfig sampleRefusal "1704067300.000100".toList).err = none
    ∧ (deleteMessage sampleConfig sampleRefusal "1704067300.000100".toList).out
        = ["Message deleted successfully\n".toList]
    ∧ (addReaction sampleConfig sampleRefusal "1704067300.000100".toList "eyes".toList).err
        = some "Error response from API: channel_not_found".toList
    ∧ (removeReaction sampleConfig sampleRefusal "1704067300.000100".toList "eyes".toList).err
        = some "Error response from API: channel_not_found".toList :=
  ⟨rfl, rfl, rfl, rfl, rfl, rfl, rfl, rfl⟩

/-! ## The edited marker of replies -/

/-- The replies `getThreadReplies` returns never carry an edited-by marker:
the field `Edited` is not copied at lines 485-492. -/
theorem getThreadReplies_edited (remote : Remote) (threadTs filter search : GoString)
    (st : State) (replies : List SlackMessageReply)
    (h : (getThreadReplies remote threadTs filter search st).1 = .ok replies) :
    ∀ r ∈ replies, r.EditedUser = [] := by
  unfold getThreadReplies at h
  simp only at h
  split at h
  · cases h
  · rename_i messages _
    simp only [Except.ok.injEq] at h
    obtain ⟨_, _, h3, _⟩ := collectReplies_spec remote threadTs filter messages []
      (st.send (.replies threadTs))
    rw [h] at h3
    intro r hr
    have hmem : r.EditedUser ∈ replies.map (fun r => r.EditedUser) := List.mem_map_of_mem _ hr
    rw [h3] at hmem
    simp only [List.map_nil, List.nil_append, List.mem_map] at hmem
    obtain ⟨_, _, he⟩ := hmem
    exact he.symm

/-- C14, at the input where it fails: the server's thread holds a reply whose
edited-by marker is `U9`.  `getThreadReplies` returns it without the marker,
and the header line `fetchMessages` prints for it has no ` (edited)` between
its text and the end of the line, while the parent, edited too, has it. -/
theorem reply_edited_marker_lost :
    sampleReplyMessage.EditedUser = "U9".toList
    ∧ (getThreadReplies sampleThreadRemote "1704067300".toList [] [] sampleState).1
        = .ok [⟨"U9".toList, "Ann".toList, "looks good".toList, "1704067301".toList, [], [],
            []⟩]
    ∧ ∃ r, fetchMessages sampleEnv sampleThreadRemote 1 5 [] "zz".toList [] false sampleState
          = some r
        ∧ r.st.out
          = ["1704067300 (1704067300) Ann: \x1b[39mrelease notes (edited)\n".toList,
             "  ↳ 1704067301 (1704067301) Ann: \x1b[39mlooks good\n".toList]
        ∧ ∀ line ∈ r.st.out.drop 1, contains line " (edited)".toList = false :=
  ⟨rfl, rfl, _, rfl, rfl, by decide⟩

/-! ## Rendering without search and filter -/

/-- C15, at the input where it fails: with `search` and `filter` both empty,
line 387 finds the empty filter in the text and line 388 replaces the empty
string, which puts the highlight, reset and default-colour codes before every
character of the line and after the last.  The text line `one` is printed as
codes, `o`, codes, `n`, codes, `e`, codes, and is no substring of the printed
line. -/
theorem empty_filter_inserts_codes :
    highlightLine [] [] "one".toList "one".toList
      = "\x1b[91m\x1b[0m\x1b[39mo\x1b[91m\x1b[0m\x1b[39mn\x1b[91m\x1b[0m\x1b[39me\x1b[91m\x1b[0m\x1b[39m".toList
    ∧ ∃ r, fetchMessages sampleEnv sampleRemote 1 1 [] [] [] false sampleState = some r
        ∧ r.loop.accepted = [sampleMessage "1704067201" "one"]
        ∧ r.st.out
          = ["1704067201 (1704067201) Ann: \x1b[39m\x1b[91m\x1b[0m\x1b[39mo\x1b[91m\x1b[0m\x1b[39mn\x1b[91m\x1b[0m\x1b[39me\x1b[91m\x1b[0m\x1b[39m\n".toList]
        ∧ ∀ line ∈ r.st.out, contains line "one".toList = false :=
  ⟨rfl, _, rfl, rfl, rfl, by decide⟩

/-! ## Decoding a code-point reference -/

theorem hexVal_ne_marks {c : Char} (h : (hexVal c).isSome = true) :
    c ≠ '&' ∧ c ≠ ';' ∧ c ≠ '+' ∧ c ≠ '-' := by
  refine ⟨?_, ?_, ?_, ?_⟩ <;>
  · rintro rfl
    revert h
    decide

/-- The scan leaves a string unchanged that lacks the first character of `old`. -/
theorem replaceScan_of_not_mem (x : Char) (xs new s : GoString) (h : x ∉ s) :
    replaceScan (x :: xs) new 0 s = s := by
  induction s with
  | nil => rfl
  | cons c cs ih =>
    simp only [List.mem_cons, not_or] at h
    have hc : (c == x) = false := by
      rw [beq_eq_false_iff_ne]
      exact fun e => h.1 e.symm
    rw [replaceScan]
    simp only [hasPrefix, hc, Bool.false_and, Bool.false_eq_true, if_false]
    rw [ih h.2]

theorem replaceAll_reference_start (rest : GoString) (h : '&' ∉ rest) :
    replaceAll ("&#x".toList ++ rest) "&#x".toList [] = rest := by
  have e : "&#x".toList = ['&', '#', 'x'] := rfl
  rw [e]
  simp only [replaceAll, List.cons_append, List.nil_append]
  rw [replaceScan]
  have hp : hasPrefix ('&' :: '#' :: 'x' :: rest) ['&', '#', 'x'] = true := by
    simp [hasPrefix]
  rw [if_pos hp]
  simp only [List.length_cons, List.length_nil, List.nil_append]
  rw [replaceScan_skip]
  simp only [List.drop]
  exact replaceScan_of_not_mem _ _ _ _ h

theorem replaceAll_semicolon_suffix (H : GoString) (h : ';' ∉ H) :
    replaceAll (H ++ ";".toList) ";".toList [] = H := by
  have e : ";".toList = [';'] := rfl
  rw [e]
  simp only [replaceAll]
  induction H with
  | nil => simp [replaceScan, hasPrefix]
  | cons c cs ih =>
    simp only [List.mem_cons, not_or] at h
    have hc : (c == ';') = false := by
      rw [beq_eq_false_iff_ne]
      exact fun e => h.1 e.symm
    simp only [List.cons_append]
    rw [replaceScan]
    simp only [hasPrefix, hc, Bool.false_and, Bool.false_eq_true, if_false]
    rw [ih h.2]

theorem parseHexFrom_of_digits (cs : GoString) (acc : Nat)
    (h : ∀ c ∈ cs, (hexVal c).isSome = true) :
    parseHexFrom cs acc = some (cs.foldl (fun a c => a * 16 + (hexVal c).getD 0) acc) := by
  induction cs generalizing acc with
  | nil => rfl
  | cons c cs ih =>
    have hc := h c (List.mem_cons_self _ _)
    obtain ⟨d, hd⟩ := Option.isSome_iff_exists.1 hc
    rw [parseHexFrom]
    simp only [hd, List.foldl_cons, Option.getD_some]
    exact ih _ (fun c' hc' => h c' (List.mem_cons_of_mem _ hc'))

theorem parseHexFrom_some (cs : GoString) (acc n : Nat) (h : parseHexFrom cs acc = some n) :
    (∀ c ∈ cs, (hexVal c).isSome = true)
    ∧ n = cs.foldl (fun a c => a * 16 + (hexVal c).getD 0) acc := by
  induction cs generalizing acc with
  | nil =>
    simp only [parseHexFrom, Option.some.injEq] at h
    exact ⟨by simp, h.symm⟩
  | cons c cs ih =>
    rw [parseHexFrom] at h
    cases hd : hexVal c with
    | none => simp [hd] at h
    | some d =>
      simp only [hd] at h
      obtain ⟨h1, h2⟩ := ih _ h
      refine ⟨?_, by simpa [hd] using h2⟩
      intro c' hc'
      rcases List.mem_cons.1 hc' with rfl | hm
      · simp [hd]
      · exact h1 c' hm

theorem parseHex_iff (H : GoString) (v : Nat) : parseHex H = some v ↔ IsHexSpelling H v := by
  cases H with
  | nil => simp [parseHex, IsHexSpelling]
  | cons c cs =>
    simp only [parseHex, IsHexSpelling, hexNat]
    constructor
    · intro h
      obtain ⟨h1, h2⟩ := parseHexFrom_some _ _ _ h
      exact ⟨by simp, h1, h2.symm⟩
    · rintro ⟨_, h1, h2⟩
      rw [parseHexFrom_of_digits _ _ h1, h2]

theorem parseInt16_unsigned (c : Char) (cs : GoString) (h1 : c ≠ '+') (h2 : c ≠ '-') :
    parseInt16 (c :: cs)
      = match parseHex (c :: cs) with
        | some un => if un ≥ 2 ^ 31 then none else some (un : Int)
        | none => none := by
  unfold parseInt16
  split
  · rename_i h
    cases h
  · rename_i rest h
    simp only [List.cons.injEq] at h
    exact absurd h.1 h1
  · rename_i rest h
    simp only [List.cons.injEq] at h
    exact absurd h.1 h2
  · rename_i a b _ _ h
    simp only [List.cons.injEq] at h
    obtain ⟨rfl, rfl⟩ := h
    rfl

theorem parseInt16_plus (rest : GoString) :
    parseInt16 ('+' :: rest)
      = match parseHex rest with
        | some un => if un ≥ 2 ^ 31 then none else some (un : Int)
        | none => none := by
  simp [parseInt16]

theorem parseInt16_minus (rest : GoString) :
    parseInt16 ('-' :: rest)
      = match parseHex rest with
        | some un => if un > 2 ^ 31 then none else some (-(un : Int))
        | none => none := by
  simp [parseInt16]

/-- The model of `strconv.ParseInt(s, 16, 32)` succeeds with `n` exactly when
`s` is a base-16 integer of value `n` within the signed 32-bit range. -/
theorem parseInt16_iff (s : GoString) (n : Int) :
    parseInt16 s = some n ↔ IsHexInteger s n ∧ -(2 : Int) ^ 31 ≤ n ∧ n < (2 : Int) ^ 31 := by
  constructor
  · intro h
    cases s with
    | nil => simp [parseInt16] at h
    | cons c cs =>
      by_cases hp : c = '+'
      · subst hp
        rw [parseInt16_plus] at h
        cases hx : parseHex cs with
        | none => simp [hx] at h
        | some un =>
          simp only [hx] at h
          split_ifs at h with hr
          simp only [Option.some.injEq] at h
          refine ⟨⟨cs, un, (parseHex_iff _ _).1 hx, Or.inl ⟨Or.inr rfl, h.symm⟩⟩, ?_, ?_⟩ <;>
            omega
      · by_cases hm : c = '-'
        · subst hm
          rw [parseInt16_minus] at h
          cases hx : parseHex cs with
          | none => simp [hx] at h
          | some un =>
            simp only [hx] at h
            split_ifs at h with hr
            simp only [Option.some.injEq] at h
            refine ⟨⟨cs, un, (parseHex_iff _ _).1 hx, Or.inr ⟨rfl, h.symm⟩⟩, ?_, ?_⟩ <;> omega
        · rw [parseInt16_unsigned c cs hp hm] at h
          cases hx : parseHex (c :: cs) with
          | none => simp [hx] at h
          | some un =>
            simp only [hx] at h
            split_ifs at h with hr
            simp only [Option.some.injEq] at h
            refine ⟨⟨c :: cs, un, (parseHex_iff _ _).1 hx, Or.inl ⟨Or.inl rfl, h.symm⟩⟩, ?_, ?_⟩
              <;> omega
  · rintro ⟨⟨H, v, hsp, hcase⟩, hlo, hhi⟩
    have hx := (parseHex_iff H v).2 hsp
    rcases hcase with ⟨hs | hs, hn⟩ | ⟨hs, hn⟩
    · obtain ⟨c, cs, rfl⟩ := List.exists_cons_of_ne_nil hsp.1
      have hd := hexVal_ne_marks (hsp.2.1 c (List.mem_cons_self _ _))
      rw [hs, parseInt16_unsigned c cs hd.2.2.1 hd.2.2.2, hx]
      have hr : ¬ v ≥ 2 ^ 31 := by omega
      simp only [hr, if_false, hn]
    · rw [hs, parseInt16_plus, hx]
      have hr : ¬ v ≥ 2 ^ 31 := by omega
      simp only [hr, if_false, hn]
    · rw [hs, parseInt16_minus, hx]
      have hr : ¬ v > 2 ^ 31 := by omega
      simp only [hr, if_false, hn]

theorem unicodeToEmoji_reference (H : GoString) (h : ∀ c ∈ H, (hexVal c).isSome = true) :
    unicodeToEmoji ("&#x".toList ++ H ++ ";".toList)
      = match parseInt16 H with
        | none => none
        | some runeValue => some (runeString runeValue) := by
  have h1 : '&' ∉ H ++ ";".toList := by
    intro hm
    rcases List.mem_append.1 hm with hm | hm
    · exact (hexVal_ne_marks (h _ hm)).1 rfl
    · revert hm
      decide
  have h2 : ';' ∉ H := fun hm => (hexVal_ne_marks (h _ hm)).2.1 rfl
  unfold unicodeToEmoji
  simp only [List.append_assoc]
  rw [replaceAll_reference_start _ h1, replaceAll_semicolon_suffix _ h2]

theorem runeString_valid (v : Nat) (hv : v < 0xD800 ∨ (0xDFFF < v ∧ v ≤ 0x10FFFF)) :
    runeString (v : Int) = [Char.ofNat v] ∧ (Char.ofNat v).toNat = v := by
  have hvalid : Nat.isValidChar v := by
    unfold Nat.isValidChar
    omega
  constructor
  · unfold runeString
    simp [hvalid]
  · simp [Char.ofNat, hvalid, Char.ofNatAux, Char.toNat, UInt32.toNat]

/-- C16: for every Unicode scalar value `v` and every hexadecimal spelling `H`
of it, in upper or lower case, `unicodeToEmoji` applied to `&#x`, `H`, `;`
succeeds and returns the one-character string of the code point `v`; and for
every input it returns the error (with the empty string) exactly when the
input, after every `&#x` and then every `;` was deleted, is not a base-16
integer within the signed 32-bit range. -/
theorem unicodeToEmoji_decodes :
    (∀ (v : Nat) (H : GoString), (v < 0xD800 ∨ (0xDFFF < v ∧ v ≤ 0x10FFFF)) →
        IsHexSpelling H v →
        unicodeToEmoji ("&#x".toList ++ H ++ ";".toList) = some [Char.ofNat v]
        ∧ (Char.ofNat v).toNat = v)
    ∧ (∀ s : GoString, unicodeToEmoji s = none ↔
        ¬ ∃ n : Int,
          IsHexInteger (replaceAll (replaceAll s "&#x".toList []) ";".toList []) n
            ∧ -(2 : Int) ^ 31 ≤ n ∧ n < (2 : Int) ^ 31) := by
  constructor
  · intro v H hv hsp
    have hparse : parseInt16 H = some (v : Int) :=
      (parseInt16_iff H v).2 ⟨⟨H, v, hsp, Or.inl ⟨Or.inl rfl, rfl⟩⟩, by omega, by omega⟩
    rw [unicodeToEmoji_reference H hsp.2.1, hparse]
    simp only [(runeString_valid v hv).1]
    exact ⟨trivial, (runeString_valid v hv).2⟩
  · intro s
    unfold unicodeToEmoji
    simp only
    cases hp : parseInt16 (replaceAll (replaceAll s "&#x".toList []) ";".toList []) with
    | none =>
      simp only [true_iff]
      rintro ⟨n, hn⟩
      rw [(parseInt16_iff _ n).2 hn] at hp
      cases hp
    | some n =>
      constructor
      · intro h
        cases h
      · intro hne
        exact absurd ⟨n, (parseInt16_iff _ n).1 hp⟩ hne

theorem unicodeToEmoji_decodes_witness :
    ((0x1F600 : Nat) < 0xD800 ∨ (0xDFFF < (0x1F600 : Nat) ∧ (0x1F600 : Nat) ≤ 0x10FFFF))
    ∧ IsHexSpelling "1f600".toList 0x1F600
    ∧ unicodeToEmoji ("&#x".toList ++ "1f600".toList ++ ";".toList) = some [Char.ofNat 0x1F600]
    ∧ (Char.ofNat 0x1F600).toNat = 0x1F600 :=
  have hv : (0x1F600 : Nat) < 0xD800 ∨ (0xDFFF < (0x1F600 : Nat) ∧ (0x1F600 : Nat) ≤ 0x10FFFF) :=
    by decide
  have hs : IsHexSpelling "1f600".toList 0x1F600 := ⟨by decide, by decide, by decide⟩
  ⟨hv, hs, unicodeToEmoji_decodes.1 0x1F600 "1f600".toList hv hs⟩

/-! ## The name of a downloaded file -/

theorem digitChar_value (k : Nat) (h : k < 10) : (Nat.digitChar k).toNat - 48 = k := by
  interval_cases k <;> rfl

/-- Reading back the digits that `Nat.toDigitsCore` puts in front of `ds`. -/
theorem decimalValue_toDigitsCore (fuel n : Nat) (ds : List Char) (h : n < fuel) :
    (Nat.toDigitsCore 10 fuel n ds).foldl (fun acc c => acc * 10 + (c.toNat - 48)) 0
      = ds.foldl (fun acc c => acc * 10 + (c.toNat - 48)) n := by
  induction fuel generalizing n ds with
  | zero => omega
  | succ fuel ih =>
    rw [Nat.toDigitsCore]
    have hd := digitChar_value (n % 10) (Nat.mod_lt _ (by omega))
    split_ifs with hq
    · have hn : n % 10 = n := by omega
      simp only [List.foldl_cons, Nat.zero_mul, Nat.zero_add, hd]
      rw [hn]
    · rw [ih (n / 10) _ (by omega)]
      simp only [List.foldl_cons, hd]
      congr 1
      omega

theorem decimalValue_formatInt (i : Nat) : decimalValue (formatInt (i : Int)) = i := by
  have h : formatInt (i : Int) = Nat.toDigits 10 i := rfl
  rw [h]
  unfold decimalValue Nat.toDigits
  rw [decimalValue_toDigitsCore _ _ _ (Nat.lt_succ_self i)]
  rfl

theorem numberedName_injective (name ext : GoString) :
    Function.Injective (numberedName name ext) := by
  intro i j h
  unfold numberedName at h
  simp only [List.append_assoc, List.append_cancel_left_eq] at h
  have h2 := List.append_cancel_right h
  have h3 := congrArg decimalValue h2
  rwa [decimalValue_formatInt, decimalValue_formatInt] at h3

/-- Among the first `existing.length + 1` numbered names one is free. -/
theorem exists_free_name (existing : List GoString) (name ext : GoString) :
    ∃ k, k ≤ existing.length ∧ numberedName name ext (1 + k) ∉ existing := by
  by_contra hcon
  push_neg at hcon
  have hinj : Function.Injective (fun k => numberedName name ext (1 + k)) := by
    intro a b hab
    have := numberedName_injective name ext hab
    omega
  have hnodup : ((List.range (existing.length + 1)).map
      (fun k => numberedName name ext (1 + k))).Nodup :=
    List.Nodup.map hinj (List.nodup_range _)
  have hsub : (List.range (existing.length + 1)).map (fun k => numberedName name ext (1 + k))
      ⊆ existing := by
    intro x hx
    obtain ⟨k, hk, rfl⟩ := List.mem_map.1 hx
    exact hcon k (by have := List.mem_range.1 hk; omega)
  have hlen := (List.subperm_of_subset hnodup hsub).length_le
  simp only [List.length_map, List.length_range] at hlen
  omega

theorem findFreeName_spec (existing : List GoString) (name ext : GoString) (fuel i k : Nat)
    (hk : k < fuel) (hfree : numberedName name ext (i + k) ∉ existing)
    (hbelow : ∀ j, j < k → numberedName name ext (i + j) ∈ existing) :
    findFreeName existing name ext fuel i = some (numberedName name ext (i + k)) := by
  induction fuel generalizing i k with
  | zero => omega
  | succ fuel ih =>
    rw [findFreeName]
    cases k with
    | zero =>
      simp only [Nat.add_zero] at hfree
      simp only [hfree, not_false_eq_true, if_true, Nat.add_zero]
    | succ k =>
      have h0 : numberedName name ext i ∈ existing := by
        have := hbelow 0 (by omega)
        simpa using this
      simp only [h0, not_true_eq_false, if_false]
      have e : i + (k + 1) = i + 1 + k := by omega
      rw [e] at hfree ⊢
      refine ih (i + 1) k (by omega) hfree ?_
      intro j hj
      have := hbelow (j + 1) (by omega)
      have e2 : i + (j + 1) = i + 1 + j := by omega
      rwa [e2] at this

theorem pathExtScan_suffix (rev acc : GoString) :
    pathExtScan rev acc <:+ rev.reverse ++ acc := by
  induction rev generalizing acc with
  | nil => exact List.nil_suffix
  | cons c rev ih =>
    rw [pathExtScan]
    split_ifs with h1 h2
    · exact List.nil_suffix
    · subst h2
      simp only [List.reverse_cons, List.append_assoc, List.singleton_append]
      exact List.suffix_append _ _
    · have := ih (c :: acc)
      simpa only [List.reverse_cons, List.append_assoc, List.singleton_append] using this

theorem take_append_pathExt (filename : GoString) :
    filename.take (filename.length - (pathExt filename).length) ++ pathExt filename
      = filename := by
  have hs : pathExt filename <:+ filename := by
    have := pathExtScan_suffix filename.reverse []
    simpa [pathExt] using this
  have key : ∀ (f e t : GoString), t ++ e = f → f.take (f.length - e.length) ++ e = f := by
    intro f e t hte
    subst hte
    simp
  obtain ⟨t, ht⟩ := hs
  exact key _ _ t ht

/-- C17: for every path of a parsed URL and every finite list `existing` of
the names present in the working directory, the choice of the output name in
`getFile` ends (a fuel above the number of existing names is enough) with a
name that is not among them: the last path element `base` itself when it is
not present, and otherwise `name`, `(`, `i`, `)`, `ext` for the least `i ≥ 1`
for which that name is not present, where `name` and `ext` are `base` split at
its extension; and `getFile` creates the file of that name when the download,
the parsing of the URL and the creation succeed. -/
theorem output_name_free (existing : List GoString) (urlPath : GoString) (fuel : Nat)
    (hfuel : existing.length < fuel) :
    ∃ chosen, outputName existing fuel urlPath = some chosen
      ∧ chosen ∉ existing
      ∧ (pathBase urlPath ∉ existing → chosen = pathBase urlPath)
      ∧ (pathBase urlPath ∈ existing →
          ∃ i : Nat, 1 ≤ i
            ∧ chosen
              = (pathBase urlPath).take
                    ((pathBase urlPath).length - (pathExt (pathBase urlPath)).length)
                  ++ "(".toList ++ formatInt (i : Int) ++ ")".toList
                  ++ pathExt (pathBase urlPath)
            ∧ ∀ j : Nat, 1 ≤ j → j < i →
                (pathBase urlPath).take
                    ((pathBase urlPath).length - (pathExt (pathBase urlPath)).length)
                  ++ "(".toList ++ formatInt (j : Int) ++ ")".toList
                  ++ pathExt (pathBase urlPath) ∈ existing)
      ∧ (pathBase urlPath).take
            ((pathBase urlPath).length - (pathExt (pathBase urlPath)).length)
          ++ pathExt (pathBase urlPath) = pathBase urlPath
      ∧ ∀ (w : FileWorld) (fileURL : GoString), w.existing = existing →
          w.doError fileURL = none → w.parsePath fileURL = .ok urlPath →
          w.createError chosen = none →
          ∃ res, getFile w fuel fileURL = some res ∧ res.created = some chosen := by
  have hget : ∀ chosen, outputName existing fuel urlPath = some chosen →
      ∀ (w : FileWorld) (fileURL : GoString), w.existing = existing →
        w.doError fileURL = none → w.parsePath fileURL = .ok urlPath →
        w.createError chosen = none →
        ∃ res, getFile w fuel fileURL = some res ∧ res.created = some chosen := by
    intro chosen hc w fileURL he hd hp hcr
    unfold getFile
    simp only [hd, hp, he, hc, hcr]
    exact ⟨_, rfl, rfl⟩
  by_cases hb : pathBase urlPath ∈ existing
  · have hex := exists_free_name existing
      ((pathBase urlPath).take ((pathBase urlPath).length - (pathExt (pathBase urlPath)).length))
      (pathExt (pathBase urlPath))
    have hex2 : ∃ k, numberedName
        ((pathBase urlPath).take
          ((pathBase urlPath).length - (pathExt (pathBase urlPath)).length))
        (pathExt (pathBase urlPath)) (1 + k) ∉ existing := by
      obtain ⟨k, _, hk⟩ := hex
      exact ⟨k, hk⟩
    have hmin : Nat.find hex2 ≤ existing.length := by
      obtain ⟨k, hk1, hk2⟩ := hex
      exact le_trans (Nat.find_min' hex2 hk2) hk1
    have hfree := Nat.find_spec hex2
    have hbelow : ∀ j, j < Nat.find hex2 → numberedName
        ((pathBase urlPath).take
          ((pathBase urlPath).length - (pathExt (pathBase urlPath)).length))
        (pathExt (pathBase urlPath)) (1 + j) ∈ existing := by
      intro j hj
      exact not_not.1 (Nat.find_min hex2 hj)
    have hrun := findFreeName_spec existing _ _ fuel 1 (Nat.find hex2) (by omega) hfree hbelow
    have hout : outputName existing fuel urlPath = some (numberedName
        ((pathBase urlPath).take
          ((pathBase urlPath).length - (pathExt (pathBase urlPath)).length))
        (pathExt (pathBase urlPath)) (1 + Nat.find hex2)) := by
      unfold outputName
      simp only [hb, if_true]
      exact hrun
    refine ⟨_, hout, hfree, fun h => absurd hb h, fun _ => ⟨1 + Nat.find hex2, by omega, rfl, ?_⟩,
      take_append_pathExt _, hget _ hout⟩
    intro j hj1 hj2
    have := hbelow (j - 1) (by omega)
    have e : 1 + (j - 1) = j := by omega
    rw [e] at this
    exact this
  · have hout : outputName existing fuel urlPath = some (pathBase urlPath) := by
      unfold outputName
      simp only [hb, if_false]
    exact ⟨_, hout, hb, fun _ => rfl, fun h => absurd h hb, take_append_pathExt _,
      hget _ hout⟩

theorem output_name_free_witness :
    ["a.txt".toList, "a(1).txt".toList].length < 3
    ∧ outputName ["a.txt".toList, "a(1).txt".toList] 3 "/files/T0/a.txt".toList
        = some "a(2).txt".toList
    ∧ ∃ chosen, outputName ["a.txt".toList, "a(1).txt".toList] 3 "/files/T0/a.txt".toList
          = some chosen
        ∧ chosen ∉ ["a.txt".toList, "a(1).txt".toList] := by
  obtain ⟨chosen, h1, h2, _⟩ := output_name_free ["a.txt".toList, "a(1).txt".toList]
    "/files/T0/a.txt".toList 3 (by decide)
  exact ⟨by decide, by decide, chosen, h1, h2⟩

end SlackCli
